import Mathlib

/-!
Shallow embedding of `samples/nrf_desktop/src/modules/hid_state.c`
(nRF desktop HID state module) together with theorems checking the
module's natural-language specification against the code.

Conventions of the embedding:
* C machine integers are modelled by `Nat`/`Int`; where the source
  relies on wrap-around (`u32_t` timestamp differences, the unsigned
  `hit_count` accumulator) the wrap is made explicit by `% 2^32`.
* The fixed-size C arrays (`struct items.item[]`, the event queue)
  become Lean lists; array capacity is the list length.
* `__ASSERT_NO_MSG` failures are recorded in a `fatal` flag of the
  state; theorems about normal operation keep that flag `false`.
* `EVENT_SUBMIT` appends the submitted report to an output trace
  carried in the state.
-/

namespace HidState

/-- HID state item (`struct item`): usage id (u16) and value (s16). -/
structure Item where
  usage_id : Nat
  value    : Int
  deriving DecidableEq, Repr

/-- State for a single target HID report (`struct items`):
fixed-capacity array of items plus the count of used slots. -/
structure Items where
  item       : List Item
  item_count : Nat
  deriving DecidableEq, Repr

/-- Target HID report kinds (`enum target_report` of `hid_event.h`). -/
inductive Target where
  | keyboard
  | mouse
  | mplayer
  deriving DecidableEq, Repr

/-- A table of the given capacity with every slot empty
(zeroed storage, as produced by `memset`). -/
def emptyItems (cap : Nat) : Items :=
  { item := List.replicate cap ⟨0, 0⟩, item_count := 0 }

/-- Comparator `usage_id_compare`: difference of the usage ids as an
`int`. -/
def usage_id_compare (a b : Nat) : Int :=
  (a : Int) - (b : Int)

/-- The binary-search loop of the local `bsearch`, specialised to an
item array searched by usage id.  `lower`/`upper` are the C `ssize_t`
bounds; the `upper = m - 1` underflow at `m = 0` (which ends the C
loop via `upper >= lower` turning false) is rendered by the `m = 0`
exit.  The loop is written with an explicit iteration bound `fuel`;
every caller passes a bound larger than the worst-case number of
iterations of the C loop, so the bound is never exhausted. -/
def bsearchAux (arr : List Item) (key : Nat) : Nat → Nat → Nat → Option Nat
  | 0, _, _ => none
  | fuel + 1, lower, upper =>
    if upper < lower then none
    else
      let m := (lower + upper) / 2
      let cmp := usage_id_compare key ((arr.getD m ⟨0, 0⟩).usage_id)
      if cmp = 0 then some m
      else if cmp < 0 then
        if m = 0 then none
        else bsearchAux arr key fuel lower (m - 1)
      else bsearchAux arr key fuel (m + 1) upper

/-- `bsearch` over an item array keyed by usage id (the
`value_set` call site).  Returns the index of a matching element. -/
def bsearchIdx (arr : List Item) (key : Nat) : Option Nat :=
  if arr.length = 0 then none
  else bsearchAux arr key (arr.length + 1) 0 (arr.length - 1)

/-- Inner selection loop of `value_set`'s sort: starting from
candidate index `id`, scan indices `j, j+1, ...` up to the end of the
array and return the index of the smallest usage id (first occurrence
wins, as the strict `<` comparison does).  `fuel` bounds the
iterations; callers pass at least the array length. -/
def selectMinIdx (arr : List Item) : Nat → Nat → Nat → Nat
  | 0, id, _ => id
  | fuel + 1, id, j =>
    if j < arr.length then
      if (arr.getD j ⟨0, 0⟩).usage_id < (arr.getD id ⟨0, 0⟩).usage_id then
        selectMinIdx arr fuel j (j + 1)
      else
        selectMinIdx arr fuel id (j + 1)
    else id

/-- Swap the elements at positions `i` and `j` (the three-assignment
swap of the sort in `value_set`). -/
def swapL (l : List Item) (i j : Nat) : List Item :=
  (l.set i (l.getD j ⟨0, 0⟩)).set j (l.getD i ⟨0, 0⟩)

/-- Outer loop of the selection sort in `value_set`: for each `k`,
find the minimal usage id at or after `k` and swap it into place.
`fuel` bounds the iterations; `sortItems` passes one more than the
array length, enough for the loop to run to completion. -/
def selSortFrom : Nat → List Item → Nat → List Item
  | 0, l, _ => l
  | fuel + 1, l, k =>
    if k < l.length then
      let id := selectMinIdx l l.length k (k + 1)
      let l' := if id ≠ k then swapL l k id else l
      selSortFrom fuel l' (k + 1)
    else l

/-- The in-place selection sort of `value_set` (run when
`item_count` changed), sorting the whole slot array by usage id. -/
def sortItems (l : List Item) : List Item :=
  selSortFrom (l.length + 1) l 0

/-- `value_set`: update the value linked with `usage_id` in the
table, returning the `update_needed` flag and the new table.
Faithful to the four cases of the C function; the final sort runs
exactly when the item count changed. -/
def value_set (items : Items) (usage_id : Nat) (report : Int) :
    Bool × Items :=
  let prev_item_count := items.item_count
  let found := bsearchIdx items.item usage_id
  let (update_needed, items1) :=
    match found with
    | some i =>
      let it := items.item.getD i ⟨0, 0⟩
      let v' := it.value + report
      if v' = 0 then
        (true, { items with
                  item := items.item.set i ⟨0, v'⟩,
                  item_count := items.item_count - 1 })
      else
        (true, { items with item := items.item.set i { it with value := v' } })
    | none =>
      if report < 0 then
        (false, items)
      else if items.item.length ≤ prev_item_count then
        (false, items)
      else
        let idx := items.item.length - prev_item_count - 1
        (true, { items with
                  item := items.item.set idx ⟨usage_id, report⟩,
                  item_count := items.item_count + 1 })
  let items2 :=
    if prev_item_count ≠ items1.item_count then
      { items1 with item := sortItems items1.item }
    else items1
  (update_needed, items2)

/-! ### Facts about the embedded binary search -/

/-- The usage ids of a slot array. -/
def usages (l : List Item) : List Nat := l.map (fun it => it.usage_id)

/-- Slot array sorted ascending by usage id. -/
def usageSorted (l : List Item) : Prop :=
  l.Pairwise (fun a b => a.usage_id ≤ b.usage_id)

instance (l : List Item) : Decidable (usageSorted l) := by
  unfold usageSorted; infer_instance

/-! ### The usage-table invariant and its preservation by `value_set` -/

/-- Usage ids of the occupied (non-empty) slots, in array order. -/
def nzUsages (l : List Item) : List Nat :=
  (usages l).filter (fun u => decide (u ≠ 0))

/-- The table invariant stated by the spec: array sorted ascending by
usage id, empty slots marked with usage id 0 (hence pushed to the
low-index end), no duplicate non-zero usage ids, and `item_count`
equal to the number of non-empty slots, at most the capacity. -/
def Inv0 (t : Items) : Prop :=
  usageSorted t.item ∧ (nzUsages t.item).Nodup ∧
    t.item_count = (nzUsages t.item).length ∧ t.item_count ≤ t.item.length

instance (t : Items) : Decidable (Inv0 t) := by
  unfold Inv0; infer_instance

/-! ### Value constraints maintained by the module at runtime -/

/-- Runtime value constraints on a slot array: empty slots are fully
zeroed (cleared slots get value 0 and `memset` zeroes everything) and
occupied slots carry a strictly positive reference count. -/
def ValOK (l : List Item) : Prop :=
  ∀ it ∈ l, (it.usage_id = 0 → it.value = 0) ∧ (it.usage_id ≠ 0 → 0 < it.value)

instance (l : List Item) : Decidable (ValOK l) := by
  unfold ValOK; infer_instance

/-- Full runtime invariant of a usage table. -/
def Inv4 (t : Items) : Prop := Inv0 t ∧ ValOK t.item

instance (t : Items) : Decidable (Inv4 t) := by
  unfold Inv4; infer_instance

/-- Fold a sequence of `value_set` calls (usage id, delta) over a
table, keeping only the resulting table. -/
def applySeq (t : Items) (seq : List (Nat × Int)) : Items :=
  seq.foldl (fun acc p => (value_set acc p.1 p.2).2) t

/-! ### The module state, report dispatch and the event queue -/

/-- Output events submitted by the module (`EVENT_SUBMIT` targets):
HID keyboard reports, HID mouse reports and keep-alive pings. -/
inductive OutEvent where
  | keyboard (keys : List Nat) (modifier_bm : Nat)
  | mouse (dx dy wheel : Int) (button_bm : Nat)
  | keepActive
  deriving DecidableEq, Repr

/-- Queued HID event (`struct item_event`, minus the intrusive list
node). -/
structure ItemEvent where
  item      : Item
  tr        : Target
  timestamp : Nat
  deriving DecidableEq, Repr

/-- Module lifecycle state (`enum state`). -/
inductive MState where
  | disconnected
  | connectedIdle
  | connectedBusy
  deriving DecidableEq, Repr

/-- The module state (`struct hid_state`: per-target usage tables,
event queue with its length counter, lifecycle state, pending mouse
accumulators, per-target in-flight report counters), extended with an
output trace recording every submitted event and a `fatal` flag
recording assertion failures. -/
structure HState where
  itemsKeyboard : Items
  itemsMouse    : Items
  itemsMplayer  : Items
  eventq        : List ItemEvent
  eventq_len    : Nat
  state         : MState
  wheel_acc     : Int
  last_dx       : Int
  last_dy       : Int
  cntKeyboard   : Nat
  cntMouse      : Nat
  cntMplayer    : Nat
  out           : List OutEvent
  fatal         : Bool
  deriving DecidableEq, Repr

/-- `state.items[tr]`. -/
def getItems (st : HState) : Target → Items
  | .keyboard => st.itemsKeyboard
  | .mouse    => st.itemsMouse
  | .mplayer  => st.itemsMplayer

/-- Write `state.items[tr]`. -/
def setItems (st : HState) : Target → Items → HState
  | .keyboard, t => { st with itemsKeyboard := t }
  | .mouse,    t => { st with itemsMouse := t }
  | .mplayer,  t => { st with itemsMplayer := t }

/-- `state.report_cnt[tr]`. -/
def getCnt (st : HState) : Target → Nat
  | .keyboard => st.cntKeyboard
  | .mouse    => st.cntMouse
  | .mplayer  => st.cntMplayer

/-- Write `state.report_cnt[tr]`. -/
def setCnt (st : HState) : Target → Nat → HState
  | .keyboard, n => { st with cntKeyboard := n }
  | .mouse,    n => { st with cntMouse := n }
  | .mplayer,  n => { st with cntMplayer := n }

/-- Modelled from the spec: the keyboard report key-slot count
(`ARRAY_SIZE(event->keys)` of `struct hid_keyboard_event`, whose
header is not part of this file); the spec fixes it at 6. -/
def KEYS : Nat := 6

/-- Key array built by `send_report_keyboard`: scan the keyboard
table from the highest index downwards, copying usage ids while the
slots are occupied (`item.value` non-zero) and at most `KEYS` slots
are filled, then zero-fill the rest. -/
def keyboardKeys (l : List Item) : List Nat :=
  let taken := ((l.reverse.takeWhile (fun it => decide (it.value ≠ 0))).take KEYS).map
    (fun it => it.usage_id)
  taken ++ List.replicate (KEYS - taken.length) 0

/-- `send_report_keyboard`: submit the keyboard report (modifier
bitmap always 0) and bump the in-flight counter. -/
def send_report_keyboard (st : HState) : HState :=
  { st with
    out := st.out ++ [OutEvent.keyboard (keyboardKeys (getItems st .keyboard).item) 0],
    cntKeyboard := st.cntKeyboard + 1 }

/-- Button bitmap built by `send_report_mouse`: OR the u8 mask
`1 << (usage_id - 1)` over every mouse-table entry with a non-zero
value. -/
def mouseButtonBm (l : List Item) : Nat :=
  l.foldl (fun bm it => if it.value ≠ 0 then bm ||| (2 ^ (it.usage_id - 1) % 256) else bm) 0

/-- The assertions of `send_report_mouse`: every pressed mouse usage
id must be in 1..8. -/
def mouseUsagesOk (l : List Item) : Bool :=
  l.all (fun it => it.value = 0 || (decide (it.usage_id ≠ 0) && decide (it.usage_id ≤ 8)))

/-- `send_report_mouse`: submit the mouse report carrying the pending
`dx`/`dy`/`wheel` and the button bitmap, bump the in-flight counter,
then zero the accumulators.  Out-of-range usage ids trip the C
assertions, recorded in `fatal`. -/
def send_report_mouse (st : HState) : HState :=
  { st with
    out := st.out ++ [OutEvent.mouse st.last_dx st.last_dy st.wheel_acc
                        (mouseButtonBm (getItems st .mouse).item)],
    cntMouse := st.cntMouse + 1,
    last_dx := 0, last_dy := 0, wheel_acc := 0,
    fatal := st.fatal || !mouseUsagesOk (getItems st .mouse).item }

/-- One dispatch of `report_send`'s switch: keyboard and mouse
reports are submitted; the unsupported `mplayer` target trips an
assertion. -/
def sendOne (st : HState) : Target → HState
  | .keyboard => send_report_keyboard st
  | .mouse    => send_report_mouse st
  | .mplayer  => { st with fatal := true }

/-- `report_send` body: dispatch the report, and if the in-flight
count for this target became exactly 1, recursively pipeline one
extra mouse report; finally force `CONNECTED_BUSY`.  The C recursion
is bounded (each nested call bumps the mouse counter), so a fuel of 3
at every entry point is never exhausted. -/
def report_sendAux : Nat → Target → HState → HState
  | 0, _, st => { st with fatal := true }
  | fuel + 1, tr, st =>
    let st1 := sendOne st tr
    let st2 := if getCnt st1 tr = 1 then report_sendAux fuel .mouse st1 else st1
    { st2 with state := .connectedBusy }

/-- `report_send`. -/
def report_send (tr : Target) (st : HState) : HState :=
  report_sendAux 3 tr st

/-- One iteration body of the `report_issued` drain loop: pop the
head event, apply it to its table via `value_set`, and dispatch a
report of its kind when the table changed. -/
def drainStep (st : HState) (ev : ItemEvent) (rest : List ItemEvent) : HState × Bool :=
  let st1 := { st with eventq := rest, eventq_len := st.eventq_len - 1 }
  let r := value_set (getItems st1 ev.tr) ev.item.usage_id ev.item.value
  let st2 := setItems st1 ev.tr r.2
  (if r.1 then report_send ev.tr st2 else st2, r.1)

/-- The do-while drain loop of `report_issued`: drain events until
one changes its table or the queue empties (then `CONNECTED_IDLE`).
`u` is the current value of the C local `update_needed`; on the path
where the queue is empty on entry the C reads it uninitialised, so
the initial value is threaded in as a parameter.  The fuel (one more
than the queue length at every call site) bounds the iterations. -/
def drainLoop : Nat → HState → Bool → HState × Bool
  | 0, st, u => (st, u)
  | fuel + 1, st, u =>
    match st.eventq with
    | [] => ({ st with state := .connectedIdle }, u)
    | ev :: rest =>
      let p := drainStep st ev rest
      if p.2 then (p.1, true) else drainLoop fuel p.1 false

/-- `report_issued`: run the drain loop; if it ended with no table
change, dispatch a mouse report anyway when a pending `dx`/`dy`/
`wheel` accumulator is non-zero.  `g` is the value read from the
uninitialised `update_needed` on the empty-queue path. -/
def report_issued (g : Bool) (st : HState) : HState :=
  let p := drainLoop (st.eventq.length + 1) st g
  if !p.2 then
    if p.1.last_dx ≠ 0 ∨ p.1.last_dy ≠ 0 ∨ p.1.wheel_acc ≠ 0 then
      report_send .mouse p.1
    else p.1
  else p.1

/-! ### Event queue cleanup (`eventq_cleanup`) and `enqueue` -/

/-- Reduction modulo 2^32 (`u32_t`). -/
def u32 (x : Nat) : Nat := x % 4294967296

/-- `u32_t` subtraction `a - b` with wrap-around. -/
def u32sub (a b : Nat) : Nat := (u32 a + 4294967296 - u32 b) % 4294967296

/-- `u32_t` addition with wrap-around. -/
def u32add (a b : Nat) : Nat := (a + b) % 4294967296

/-- `unsigned int hit_count += (s16_t) value`: signed value added
into the unsigned 32-bit accumulator. -/
def hitAdd (hit : Nat) (v : Int) : Nat :=
  (((hit : Nat) + v) % (4294967296 : Int)).toNat

/-- Position of `first_valid`: the first queued event whose age
`timestamp_now - timestamp_event` (u32 arithmetic) is below the
expiration window.  Equals `q.length` when every event is expired
(the C pointer is then `NULL`). -/
def firstValidIdx (expiration now : Nat) (q : List ItemEvent) : Nat :=
  q.findIdx (fun e => decide (u32sub now e.timestamp < expiration))

/-- Inner pairing scan of `eventq_cleanup`
(`SYS_SLIST_ITERATE_FROM_NODE`): starting after the press, accumulate
same-usage deltas into the unsigned `hit_count`; return the position
where the count reaches zero, or `none` when the scan reaches
`first_valid` (position `fv`) or runs off the end of the list first
(`j == first_valid` with a `NULL` `first_valid`). -/
def pairAux (q : List ItemEvent) (u : Nat) (fv : Nat) : Nat → Nat → Nat → Option Nat
  | 0, _, _ => none
  | fuel + 1, hit, j =>
    if j = fv then none
    else
      match q[j]? with
      | none => none
      | some e =>
        if e.item.usage_id = u then
          let hit' := hitAdd hit e.item.value
          if hit' = 0 then some j else pairAux q u fv fuel hit' (j + 1)
        else pairAux q u fv fuel hit (j + 1)

/-- Pairing scan for the press at position `p`: `hit_count` starts at
the press's value (converted to unsigned). -/
def pairScan (q : List ItemEvent) (fv p : Nat) : Option Nat :=
  match q[p]? with
  | some e => pairAux q e.item.usage_id fv (q.length + 1) (hitAdd 0 e.item.value) (p + 1)
  | none => none

/-- Outer loop of `eventq_cleanup`, in the coordinates of the
original queue: `cur` is the scan position, `maxf` the furthest
pairing boundary found so far (`maxfound`), `purged` the number of
events already removed from the head (each purge removes the region
from the old head through `maxfound` inclusive).  Returns the total
number of removed head events.  A press with no pairing before
`first_valid` stops the whole scan. -/
def cleanupLoop (q : List ItemEvent) (fv : Nat) : Nat → Nat → Nat → Nat → Nat
  | 0, _, _, purged => purged
  | fuel + 1, cur, maxf, purged =>
    match q[cur]? with
    | none => purged
    | some e =>
      if 0 < e.item.value then
        match pairScan q fv cur with
        | none => purged
        | some j =>
          let maxf' := if maxf < j then j else maxf
          if cur = fv then purged
          else if cur = maxf' then cleanupLoop q fv fuel (cur + 1) maxf' (cur + 1)
          else cleanupLoop q fv fuel (cur + 1) maxf' purged
      else
        if cur = fv then purged
        else if cur = maxf then cleanupLoop q fv fuel (cur + 1) maxf (cur + 1)
        else cleanupLoop q fv fuel (cur + 1) maxf purged

/-- Number of events removed by `eventq_cleanup` at time `now`: the
removed events are always a prefix of the queue. -/
def eventq_cleanup_count (expiration now : Nat) (q : List ItemEvent) : Nat :=
  cleanupLoop q (firstValidIdx expiration now q) (q.length + 1) 0 0 0

/-- `eventq_cleanup`: the queue after removing the purged prefix. -/
def eventq_cleanup (expiration now : Nat) (q : List ItemEvent) : List ItemEvent :=
  q.drop (eventq_cleanup_count expiration now q)

/-- `eventq_cleanup` acting on the module state (queue plus its
length counter). -/
def cleanupSt (expiration now : Nat) (st : HState) : HState :=
  { st with
    eventq := eventq_cleanup expiration now st.eventq,
    eventq_len := st.eventq_len - eventq_cleanup_count expiration now st.eventq }

/-- `eventq_reset`. -/
def eventq_reset (st : HState) : HState :=
  { st with eventq := [], eventq_len := 0 }

/-- `eventq_full`. -/
def eventq_full (qcap : Nat) (st : HState) : Bool :=
  decide (qcap ≤ st.eventq_len)

/-- `memset(state.items, 0, sizeof(state.items))` for one table. -/
def zeroItems (t : Items) : Items := emptyItems t.item.length

/-- The hard reset of `enqueue`'s last resort (and of `disconnect`):
zero all usage tables. -/
def zeroAllItems (st : HState) : HState :=
  { st with
    itemsKeyboard := zeroItems st.itemsKeyboard,
    itemsMouse    := zeroItems st.itemsMouse,
    itemsMplayer  := zeroItems st.itemsMplayer }

/-- Retry loop of `enqueue` in the DISCONNECTED full-queue case: walk
the queued events (the list is not modified while the queue stays
full, so iterating the snapshot is the C traversal) and re-run
cleanup with the time advanced to each event's expiration instant,
stopping as soon as the queue is no longer full. -/
def enqueueRetry (expiration qcap : Nat) : List ItemEvent → HState → HState
  | [], st => st
  | e :: rest, st =>
    let st' := cleanupSt expiration (u32add e.timestamp expiration) st
    if qcap ≤ st'.eventq_len then enqueueRetry expiration qcap rest st' else st'

/-- The full-queue branch of `enqueue`: while DISCONNECTED, retry
cleanup at each queued event's expiration instant; if the queue is
still full after that, hard reset (drop the whole queue, zero every
usage table). -/
def enqueueOverflow (expiration qcap : Nat) (st1 : HState) : HState :=
  if qcap ≤ st1.eventq_len then
    let st2 :=
      if st1.state = .disconnected then enqueueRetry expiration qcap st1.eventq st1
      else st1
    if qcap ≤ st2.eventq_len then eventq_reset (zeroAllItems st2) else st2
  else st1

/-- `enqueue`: cleanup first; if the queue is full, retry cleanup at
each queued event's expiration instant while DISCONNECTED, then hard
reset (drop the whole queue, zero every usage table) if still full;
finally allocate and append the new event (`allocOk` models the
`k_malloc` result; on failure the event is dropped). -/
def enqueue (expiration qcap now : Nat) (allocOk : Bool) (tr : Target)
    (usage_id : Nat) (report : Int) (st : HState) : HState :=
  let st3 := enqueueOverflow expiration qcap (cleanupSt expiration now st)
  if allocOk then
    { st3 with
      eventq := st3.eventq ++ [⟨⟨usage_id, report⟩, tr, now⟩],
      eventq_len := st3.eventq_len + 1 }
  else st3

/-- `update`: apply immediately when CONNECTED_IDLE (dispatching a
report if the table changed), otherwise enqueue. -/
def update (expiration qcap now : Nat) (allocOk : Bool) (tr : Target)
    (usage_id : Nat) (report : Int) (st : HState) : HState :=
  match st.state with
  | .connectedIdle =>
    let r := value_set (getItems st tr) usage_id report
    let st1 := setItems st tr r.2
    if r.1 then report_send tr st1 else st1
  | .disconnected => enqueue expiration qcap now allocOk tr usage_id report st
  | .connectedBusy => enqueue expiration qcap now allocOk tr usage_id report st

/-- `connect`: clear the mouse accumulators, clean the queue, then go
IDLE on an empty queue or start draining (BUSY) otherwise.  `g` as in
`report_issued`. -/
def connect (expiration now : Nat) (g : Bool) (st : HState) : HState :=
  let st1 := { st with last_dx := 0, last_dy := 0, wheel_acc := 0 }
  let st2 := if st1.eventq ≠ [] then cleanupSt expiration now st1 else st1
  if st2.eventq = [] then { st2 with state := .connectedIdle }
  else report_issued g { st2 with state := .connectedBusy }

/-- `disconnect`: if not already DISCONNECTED, go DISCONNECTED and
clear all usage tables and the queue; a disconnect while already
DISCONNECTED (a failed connection attempt) is explicitly ignored. -/
def disconnect (st : HState) : HState :=
  if st.state ≠ .disconnected then
    eventq_reset (zeroAllItems { st with state := .disconnected })
  else st

/-- `keep_device_active`: submit a keep-alive event. -/
def keep_device_active (st : HState) : HState :=
  { st with out := st.out ++ [OutEvent.keepActive] }

/-- The `motion_event` branch of `event_handler`: the pending
`dx`/`dy` are overwritten ("Do not accumulate mouse motion data");
report only when CONNECTED_IDLE. -/
def handleMotion (dx dy : Int) (st : HState) : HState :=
  let st1 := { st with last_dx := dx, last_dy := dy }
  let st2 := if st1.state = .connectedIdle then report_send .mouse st1 else st1
  keep_device_active st2

/-- The `wheel_event` branch of `event_handler`: the wheel delta is
accumulated; report only when CONNECTED_IDLE. -/
def handleWheel (wheel : Int) (st : HState) : HState :=
  let st1 := { st with wheel_acc := st.wheel_acc + wheel }
  let st2 := if st1.state = .connectedIdle then report_send .mouse st1 else st1
  keep_device_active st2

/-- The `hid_report_sent_event` branch of `event_handler`: assert an
outstanding report, run `report_issued`, then decrement the in-flight
counter of the acknowledged kind. -/
def handleReportSent (tr : Target) (g : Bool) (st : HState) : HState :=
  let st1 := if getCnt st tr = 0 then { st with fatal := true } else st
  let st2 := report_issued g st1
  setCnt st2 tr (getCnt st2 tr - 1)

/-- The `hid_report_subscription_event` branch of `event_handler`. -/
def handleSubscription (expiration now : Nat) (g : Bool) (enabled : Bool)
    (st : HState) : HState :=
  if enabled then connect expiration now g st else disconnect st

/-! ### Facts about report dispatch and the drain loop -/

/-- The report kind an output event carries, if any. -/
def kindOf : OutEvent → Option Target
  | .keyboard _ _ => some .keyboard
  | .mouse _ _ _ _ => some .mouse
  | .keepActive => none

/-- Well-formedness of the queue bookkeeping: the `eventq_len`
counter tracks the queue's length. -/
def QWF (st : HState) : Prop := st.eventq_len = st.eventq.length

/-! ### Pairing safety of `eventq_cleanup` -/

/-- Is the queued event at position `p` a press (positive delta)? -/
def pressAt (q : List ItemEvent) (p : Nat) : Bool :=
  match q[p]? with
  | some e => decide (0 < e.item.value)
  | none => false

/-- Usage id of the queued event at position `p` (0 past the end). -/
def usageAt (q : List ItemEvent) (p : Nat) : Nat :=
  match q[p]? with
  | some e => e.item.usage_id
  | none => 0

/-- Contribution of queue position `i` to usage `u`'s net delta. -/
def contrib (q : List ItemEvent) (u : Nat) (i : Nat) : Int :=
  match q[i]? with
  | some e => if e.item.usage_id = u then e.item.value else 0
  | none => 0

/-- Net delta of usage `u` over queue positions `[a, b)`. -/
def netRange (q : List ItemEvent) (u : Nat) (a b : Nat) : Int :=
  ∑ i ∈ Finset.Ico a b, contrib q u i

lemma usageSorted_mono {l : List Item} (hs : usageSorted l) {i j : Nat}
    (hij : i ≤ j) (hj : j < l.length) :
    (l.getD i ⟨0, 0⟩).usage_id ≤ (l.getD j ⟨0, 0⟩).usage_id := by
  rcases Nat.eq_or_lt_of_le hij with rfl | hlt
  · exact le_refl _
  · rw [List.getD_eq_getElem _ _ (lt_trans hlt hj), List.getD_eq_getElem _ _ hj]
    exact (List.pairwise_iff_getElem.mp hs) i j (lt_trans hlt hj) hj hlt

lemma bsearchAux_some {arr : List Item} {key : Nat} :
    ∀ fuel lower upper, upper < arr.length →
      ∀ i, bsearchAux arr key fuel lower upper = some i →
        i < arr.length ∧ (arr.getD i ⟨0, 0⟩).usage_id = key := by
  intro fuel
  induction fuel with
  | zero =>
    intro lower upper _ i hi
    exact absurd hi (by simp [bsearchAux])
  | succ fuel ih =>
    intro lower upper hu i hi
    simp only [bsearchAux] at hi
    by_cases h1 : upper < lower
    · rw [if_pos h1] at hi
      exact absurd hi (by simp)
    rw [if_neg h1] at hi
    have hmu : (lower + upper) / 2 ≤ upper := by omega
    by_cases h2 : usage_id_compare key
        ((arr.getD ((lower + upper) / 2) ⟨0, 0⟩).usage_id) = 0
    · rw [if_pos h2] at hi
      have hie : (lower + upper) / 2 = i := by simpa using hi
      subst hie
      refine ⟨by omega, ?_⟩
      unfold usage_id_compare at h2
      omega
    rw [if_neg h2] at hi
    by_cases h3 : usage_id_compare key
        ((arr.getD ((lower + upper) / 2) ⟨0, 0⟩).usage_id) < 0
    · rw [if_pos h3] at hi
      by_cases h4 : (lower + upper) / 2 = 0
      · rw [if_pos h4] at hi
        exact absurd hi (by simp)
      · rw [if_neg h4] at hi
        exact ih lower ((lower + upper) / 2 - 1) (by omega) i hi
    · rw [if_neg h3] at hi
      exact ih ((lower + upper) / 2 + 1) upper hu i hi

lemma bsearchAux_none {arr : List Item} {key : Nat} (hs : usageSorted arr) :
    ∀ fuel lower upper, upper < arr.length → upper + 1 - lower ≤ fuel →
      bsearchAux arr key fuel lower upper = none →
        ∀ i, lower ≤ i → i ≤ upper → (arr.getD i ⟨0, 0⟩).usage_id ≠ key := by
  intro fuel
  induction fuel with
  | zero =>
    intro lower upper hu hf _ i hli hiu
    omega
  | succ fuel ih =>
    intro lower upper hu hf hnone i hli hiu
    simp only [bsearchAux] at hnone
    by_cases h1 : upper < lower
    · omega
    rw [if_neg h1] at hnone
    have hml : lower ≤ (lower + upper) / 2 := by omega
    have hmu : (lower + upper) / 2 ≤ upper := by omega
    by_cases h2 : usage_id_compare key
        ((arr.getD ((lower + upper) / 2) ⟨0, 0⟩).usage_id) = 0
    · rw [if_pos h2] at hnone
      exact absurd hnone (by simp)
    rw [if_neg h2] at hnone
    by_cases h3 : usage_id_compare key
        ((arr.getD ((lower + upper) / 2) ⟨0, 0⟩).usage_id) < 0
    · rw [if_pos h3] at hnone
      by_cases h4 : (lower + upper) / 2 = 0
      · have hmi : (lower + upper) / 2 ≤ i := by omega
        have := usageSorted_mono hs hmi (show i < arr.length by omega)
        intro he
        rw [he] at this
        unfold usage_id_compare at h3
        omega
      · rw [if_neg h4] at hnone
        by_cases hc : i ≤ (lower + upper) / 2 - 1
        · exact ih lower ((lower + upper) / 2 - 1) (by omega) (by omega) hnone i hli hc
        · have hmi : (lower + upper) / 2 ≤ i := by omega
          have := usageSorted_mono hs hmi (show i < arr.length by omega)
          intro he
          rw [he] at this
          unfold usage_id_compare at h3
          omega
    · rw [if_neg h3] at hnone
      by_cases hc : (lower + upper) / 2 + 1 ≤ i
      · exact ih ((lower + upper) / 2 + 1) upper hu (by omega) hnone i hc hiu
      · have him : i ≤ (lower + upper) / 2 := by omega
        have := usageSorted_mono hs him (show (lower + upper) / 2 < arr.length by omega)
        intro he
        rw [he] at this
        unfold usage_id_compare at h2 h3
        omega

lemma bsearchIdx_some {arr : List Item} {key : Nat} {i : Nat}
    (h : bsearchIdx arr key = some i) :
    i < arr.length ∧ (arr.getD i ⟨0, 0⟩).usage_id = key := by
  unfold bsearchIdx at h
  by_cases h0 : arr.length = 0
  · rw [if_pos h0] at h
    exact absurd h (by simp)
  · rw [if_neg h0] at h
    exact bsearchAux_some (arr.length + 1) 0 (arr.length - 1) (by omega) i h

lemma bsearchIdx_none {arr : List Item} {key : Nat} (hs : usageSorted arr)
    (h : bsearchIdx arr key = none) :
    ∀ i, i < arr.length → (arr.getD i ⟨0, 0⟩).usage_id ≠ key := by
  intro i hi
  unfold bsearchIdx at h
  by_cases h0 : arr.length = 0
  · omega
  · rw [if_neg h0] at h
    exact bsearchAux_none hs (arr.length + 1) 0 (arr.length - 1)
      (by omega) (by omega) h i (by omega) (by omega)

/-! ### Facts about the embedded selection sort -/

lemma selectMinIdx_spec (arr : List Item) :
    ∀ fuel id j, id < arr.length → arr.length ≤ j + fuel →
      selectMinIdx arr fuel id j < arr.length ∧
      (selectMinIdx arr fuel id j = id ∨ j ≤ selectMinIdx arr fuel id j) ∧
      (arr.getD (selectMinIdx arr fuel id j) ⟨0, 0⟩).usage_id
          ≤ (arr.getD id ⟨0, 0⟩).usage_id ∧
      (∀ t, j ≤ t → t < arr.length →
        (arr.getD (selectMinIdx arr fuel id j) ⟨0, 0⟩).usage_id
          ≤ (arr.getD t ⟨0, 0⟩).usage_id) := by
  intro fuel
  induction fuel with
  | zero =>
    intro id j hid hf
    exact ⟨hid, Or.inl rfl, le_refl _, fun t hjt htl => by omega⟩
  | succ fuel ih =>
    intro id j hid hf
    rw [selectMinIdx]
    by_cases hj : j < arr.length
    · rw [if_pos hj]
      by_cases hlt : (arr.getD j ⟨0, 0⟩).usage_id < (arr.getD id ⟨0, 0⟩).usage_id
      · rw [if_pos hlt]
        obtain ⟨h1, h2, h3, h4⟩ := ih j (j + 1) hj (by omega)
        refine ⟨h1, Or.inr (by omega), le_trans h3 (le_of_lt hlt), ?_⟩
        intro t hjt htl
        rcases Nat.eq_or_lt_of_le hjt with rfl | hgt
        · exact h3
        · exact h4 t hgt htl
      · rw [if_neg hlt]
        obtain ⟨h1, h2, h3, h4⟩ := ih id (j + 1) hid (by omega)
        refine ⟨h1, by omega, h3, ?_⟩
        intro t hjt htl
        rcases Nat.eq_or_lt_of_le hjt with rfl | hgt
        · exact le_trans h3 (le_of_not_lt hlt)
        · exact h4 t hgt htl
    · rw [if_neg hj]
      exact ⟨hid, Or.inl rfl, le_refl _, fun t hjt htl => by omega⟩

lemma swapL_length (l : List Item) (i j : Nat) : (swapL l i j).length = l.length := by
  simp [swapL]

lemma swapL_perm (l : List Item) {i j : Nat} (hi : i < l.length) (hj : j < l.length) :
    List.Perm (swapL l i j) l := by
  rw [List.perm_iff_count]
  intro b
  unfold swapL
  rw [List.getD_eq_getElem _ _ hj, List.getD_eq_getElem _ _ hi]
  rw [List.count_set _ _ _ _ (by simpa using hj), List.count_set _ _ _ _ hi]
  rw [List.getElem_set]
  have hmem : ∀ (x : Item), x ∈ l → 1 ≤ l.count x :=
    fun _ hx => List.one_le_count_iff.mpr hx
  by_cases hib : l[i] = b <;> by_cases hjb : l[j] = b
  · simp only [if_pos, hib, hjb, ite_self, beq_self_eq_true, if_true]
    have := hmem b (hib ▸ List.getElem_mem hi)
    omega
  · have h1 : (l[i] == b) = true := beq_iff_eq.mpr hib
    have h2 : (l[j] == b) = false := beq_eq_false_iff_ne.mpr hjb
    have := hmem b (hib ▸ List.getElem_mem hi)
    simp [h1, h2]
    omega
  · have h1 : (l[i] == b) = false := beq_eq_false_iff_ne.mpr hib
    have h2 : (l[j] == b) = true := beq_iff_eq.mpr hjb
    have := hmem b (hjb ▸ List.getElem_mem hj)
    simp [h1, h2]
  · have h1 : (l[i] == b) = false := beq_eq_false_iff_ne.mpr hib
    have h2 : (l[j] == b) = false := beq_eq_false_iff_ne.mpr hjb
    simp [h1, h2]

lemma selSortFrom_perm : ∀ (fuel : Nat) (l : List Item) (k : Nat),
    List.Perm (selSortFrom fuel l k) l := by
  intro fuel
  induction fuel with
  | zero =>
    intro l k
    rw [selSortFrom]
  | succ fuel ih =>
    intro l k
    by_cases hk : k < l.length
    · have heq : selSortFrom (fuel + 1) l k
          = selSortFrom fuel
              (if selectMinIdx l l.length k (k + 1) ≠ k
               then swapL l k (selectMinIdx l l.length k (k + 1)) else l)
              (k + 1) := by
        rw [selSortFrom, if_pos hk]
      rw [heq]
      refine (ih _ _).trans ?_
      split
      · obtain ⟨h1, _, _, _⟩ :=
          selectMinIdx_spec l l.length k (k + 1) hk (by omega)
        exact swapL_perm l hk h1
      · exact List.Perm.refl l
    · rw [selSortFrom, if_neg hk]

lemma swapL_getD (l : List Item) {i j t : Nat} (hi : i < l.length)
    (hj : j < l.length) (ht : t < l.length) :
    (swapL l i j).getD t ⟨0, 0⟩ =
      if t = j then l.getD i ⟨0, 0⟩
      else if t = i then l.getD j ⟨0, 0⟩
      else l.getD t ⟨0, 0⟩ := by
  unfold swapL
  rw [List.getD_eq_getElem _ _ (by simpa using ht)]
  simp only [List.getElem_set]
  rcases eq_or_ne t j with rfl | h1
  · rw [if_pos rfl, if_pos rfl]
  · rw [if_neg (fun hh => h1 hh.symm)]
    rcases eq_or_ne t i with rfl | h2
    · rw [if_pos rfl, if_neg h1, if_pos rfl]
    · rw [if_neg (fun hh => h2 hh.symm), if_neg h1, if_neg h2,
        List.getD_eq_getElem _ _ ht]

lemma selSortFrom_sorted : ∀ (fuel : Nat) (l : List Item) (k : Nat),
    l.length ≤ k + fuel →
    (∀ i j, i < k → i < j → j < l.length →
      (l.getD i ⟨0, 0⟩).usage_id ≤ (l.getD j ⟨0, 0⟩).usage_id) →
    usageSorted (selSortFrom fuel l k) := by
  intro fuel
  induction fuel with
  | zero =>
    intro l k hf hpre
    rw [selSortFrom]
    rw [usageSorted, List.pairwise_iff_getElem]
    intro i j hi hj hij
    have := hpre i j (by omega) hij hj
    rwa [List.getD_eq_getElem _ _ hi, List.getD_eq_getElem _ _ hj] at this
  | succ fuel ih =>
    intro l k hf hpre
    by_cases hk : k < l.length
    · have heq : selSortFrom (fuel + 1) l k
          = selSortFrom fuel
              (if selectMinIdx l l.length k (k + 1) ≠ k
               then swapL l k (selectMinIdx l l.length k (k + 1)) else l)
              (k + 1) := by
        rw [selSortFrom, if_pos hk]
      rw [heq]
      obtain ⟨hidlen, hidge, hidk, hmin⟩ :=
        selectMinIdx_spec l l.length k (k + 1) hk (by omega)
      set idm := selectMinIdx l l.length k (k + 1) with hidm
      set l' := if idm ≠ k then swapL l k idm else l with hl'
      have hkid : k ≤ idm := by rcases hidge with h | h <;> omega
      have hlen : l'.length = l.length := by
        rw [hl']
        split <;> simp [swapL]
      have hminall : ∀ t, k ≤ t → t < l.length →
          (l.getD idm ⟨0, 0⟩).usage_id ≤ (l.getD t ⟨0, 0⟩).usage_id := by
        intro t hkt htl
        rcases Nat.eq_or_lt_of_le hkt with rfl | h
        · exact hidk
        · exact hmin t h htl
      have hget : ∀ t, t < l.length →
          l'.getD t ⟨0, 0⟩ =
            if t = idm then l.getD k ⟨0, 0⟩
            else if t = k then l.getD idm ⟨0, 0⟩
            else l.getD t ⟨0, 0⟩ := by
        intro t htl
        rw [hl']
        split
        · exact swapL_getD l hk hidlen htl
        · rename_i hne
          have heq2 : idm = k := not_ne_iff.mp hne
          rw [heq2]
          rcases eq_or_ne t k with rfl | h2
          · rw [if_pos rfl]
          · rw [if_neg h2, if_neg h2]
      apply ih l' (k + 1) (by omega)
      intro i j hik1 hij hjl
      rw [hlen] at hjl
      rw [hget i (by omega), hget j (by omega)]
      by_cases hik : i < k
      · have hini : ¬ i = idm := by omega
        have hink : ¬ i = k := by omega
        rw [if_neg hini, if_neg hink]
        by_cases hjid : j = idm
        · rw [if_pos hjid]
          exact hpre i k hik hik hk
        · rw [if_neg hjid]
          by_cases hjk : j = k
          · rw [if_pos hjk]
            exact hpre i idm hik (by omega) hidlen
          · rw [if_neg hjk]
            exact hpre i j hik hij hjl
      · have hike : i = k := by omega
        subst hike
        have hjk : ¬ j = i := by omega
        rw [if_neg hjk]
        have hL : (if i = idm then l.getD i ⟨0, 0⟩ else
            if i = i then l.getD idm ⟨0, 0⟩ else l.getD i ⟨0, 0⟩) = l.getD idm ⟨0, 0⟩ := by
          rcases eq_or_ne i idm with h | h
          · rw [if_pos h, h]
          · rw [if_neg h, if_pos rfl]
        rw [hL]
        by_cases hjid : j = idm
        · rw [if_pos hjid]
          exact hidk
        · rw [if_neg hjid]
          exact hminall j (by omega) hjl
    · rw [selSortFrom, if_neg hk]
      rw [usageSorted, List.pairwise_iff_getElem]
      intro i j hi hj hij
      have := hpre i j (by omega) hij hj
      rwa [List.getD_eq_getElem _ _ hi, List.getD_eq_getElem _ _ hj] at this

lemma sortItems_sorted (l : List Item) : usageSorted (sortItems l) :=
  selSortFrom_sorted (l.length + 1) l 0 (by omega) (by intro i j h; omega)

lemma sortItems_perm (l : List Item) : List.Perm (sortItems l) l :=
  selSortFrom_perm (l.length + 1) l 0

lemma sortItems_length (l : List Item) : (sortItems l).length = l.length :=
  (sortItems_perm l).length_eq

/-! ### Branch equations for `value_set` -/

lemma value_set_found_ne {t : Items} {u : Nat} {d : Int} {i : Nat}
    (hfind : bsearchIdx t.item u = some i)
    (hv : (t.item.getD i ⟨0, 0⟩).value + d ≠ 0) :
    value_set t u d =
      (true,
       ⟨t.item.set i ⟨(t.item.getD i ⟨0, 0⟩).usage_id, (t.item.getD i ⟨0, 0⟩).value + d⟩,
        t.item_count⟩) := by
  simp only [value_set, hfind]
  simp only [if_neg hv]
  simp

lemma value_set_found_zero {t : Items} {u : Nat} {d : Int} {i : Nat}
    (hfind : bsearchIdx t.item u = some i)
    (hv : (t.item.getD i ⟨0, 0⟩).value + d = 0)
    (hc : 1 ≤ t.item_count) :
    value_set t u d =
      (true, { item := sortItems (t.item.set i ⟨0, 0⟩),
               item_count := t.item_count - 1 }) := by
  simp only [value_set, hfind]
  simp only [if_pos hv, hv]
  have hne : t.item_count ≠ t.item_count - 1 := by omega
  simp only [ne_eq, if_pos hne]
  simp [hne]

lemma value_set_none_neg {t : Items} {u : Nat} {d : Int}
    (hfind : bsearchIdx t.item u = none) (hd : d < 0) :
    value_set t u d = (false, t) := by
  simp only [value_set, hfind]
  simp [hd]

lemma value_set_none_full {t : Items} {u : Nat} {d : Int}
    (hfind : bsearchIdx t.item u = none) (hd : ¬ d < 0)
    (hfull : t.item.length ≤ t.item_count) :
    value_set t u d = (false, t) := by
  simp only [value_set, hfind]
  simp [hd, hfull]

lemma value_set_none_insert {t : Items} {u : Nat} {d : Int}
    (hfind : bsearchIdx t.item u = none) (hd : ¬ d < 0)
    (hroom : t.item_count < t.item.length) :
    value_set t u d =
      (true, { item := sortItems
                 (t.item.set (t.item.length - t.item_count - 1) ⟨u, d⟩),
               item_count := t.item_count + 1 }) := by
  simp only [value_set, hfind]
  have hfull : ¬ t.item.length ≤ t.item_count := by omega
  have hne : t.item_count ≠ t.item_count + 1 := by omega
  simp [hd, hfull, hne]

lemma usages_length (l : List Item) : (usages l).length = l.length := by
  simp [usages]

lemma usages_getElem (l : List Item) {i : Nat} (h : i < l.length)
    (h2 : i < (usages l).length) :
    (usages l)[i] = (l.getD i ⟨0, 0⟩).usage_id := by
  rw [List.getD_eq_getElem _ _ h]
  simp [usages]

lemma usages_set (l : List Item) (i : Nat) (a : Item) :
    usages (l.set i a) = (usages l).set i a.usage_id := by
  simp [usages, List.map_set]

lemma usageSorted_iff (l : List Item) :
    usageSorted l ↔ (usages l).Pairwise (fun a b => a ≤ b) := by
  simp [usageSorted, usages, List.pairwise_map]

lemma nzUsages_perm {l₁ l₂ : List Item} (h : List.Perm l₁ l₂) :
    List.Perm (nzUsages l₁) (nzUsages l₂) :=
  (h.map _).filter _

lemma set_self_nat (U : List Nat) {i : Nat} (h : i < U.length) :
    U.set i U[i] = U := by
  apply List.ext_getElem (by simp)
  intro n h1 h2
  rw [List.getElem_set]
  split
  · rename_i he
    subst he
    rfl
  · rfl

lemma set_decomp_nat (U : List Nat) {i : Nat} (h : i < U.length) (x : Nat) :
    U.set i x = U.take i ++ x :: U.drop (i + 1) := by
  rw [List.set_eq_take_append_cons_drop, if_pos h]

lemma self_decomp_nat (U : List Nat) {i : Nat} (h : i < U.length) :
    U = U.take i ++ U[i] :: U.drop (i + 1) := by
  conv_lhs => rw [← List.take_append_drop i U]
  rw [List.drop_eq_getElem_cons h]

lemma nz_set_zero_len (U : List Nat) {i : Nat} (h : i < U.length)
    (hnz : U[i] ≠ 0) :
    ((U.set i 0).filter (fun u => decide (u ≠ 0))).length + 1
      = (U.filter (fun u => decide (u ≠ 0))).length := by
  rw [set_decomp_nat U h]
  conv_rhs => rw [self_decomp_nat U h]
  rw [List.filter_append, List.filter_append, List.filter_cons, List.filter_cons]
  rw [if_neg (by simp), if_pos (by simp [hnz])]
  simp only [List.length_append, List.length_cons]
  omega

lemma nz_set_zero_nodup (U : List Nat) {i : Nat} (h : i < U.length)
    (hnd : (U.filter (fun u => decide (u ≠ 0))).Nodup) :
    ((U.set i 0).filter (fun u => decide (u ≠ 0))).Nodup := by
  rw [set_decomp_nat U h]
  rw [self_decomp_nat U h] at hnd
  rw [List.filter_append, List.filter_cons] at hnd ⊢
  rw [if_neg (by simp)]
  by_cases hz : U[i] = 0
  · rw [if_neg (by simp [hz])] at hnd
    exact hnd
  · rw [if_pos (by simp [hz])] at hnd
    exact (List.Sublist.append_left (List.sublist_cons_self _ _) _).nodup hnd

lemma nz_set_insert_len (U : List Nat) {i : Nat} (h : i < U.length)
    (hz : U[i] = 0) {x : Nat} (hx : x ≠ 0) :
    ((U.set i x).filter (fun u => decide (u ≠ 0))).length
      = (U.filter (fun u => decide (u ≠ 0))).length + 1 := by
  rw [set_decomp_nat U h]
  conv_rhs => rw [self_decomp_nat U h]
  rw [List.filter_append, List.filter_append, List.filter_cons, List.filter_cons]
  rw [if_pos (by simp [hx]), if_neg (by simp [hz])]
  simp only [List.length_append, List.length_cons]
  omega

lemma nz_set_insert_nodup (U : List Nat) {i : Nat} (h : i < U.length)
    (hz : U[i] = 0) {x : Nat} (hx : x ≠ 0) (hmem : x ∉ U)
    (hnd : (U.filter (fun u => decide (u ≠ 0))).Nodup) :
    ((U.set i x).filter (fun u => decide (u ≠ 0))).Nodup := by
  rw [set_decomp_nat U h]
  rw [self_decomp_nat U h] at hnd hmem
  rw [List.filter_append, List.filter_cons] at hnd ⊢
  rw [if_pos (by simp [hx])]
  rw [if_neg (by simp [hz])] at hnd
  rw [List.nodup_middle, List.nodup_cons]
  constructor
  · intro hc
    apply hmem
    rcases List.mem_append.mp hc with h1 | h1
    · exact List.mem_append.mpr (Or.inl (List.mem_of_mem_filter h1))
    · exact List.mem_append.mpr
        (Or.inr (List.mem_cons_of_mem _ (List.mem_of_mem_filter h1)))
  · exact hnd

lemma nzUsages_length_le (l : List Item) : (nzUsages l).length ≤ l.length := by
  calc (nzUsages l).length ≤ (usages l).length := List.length_filter_le _ _
  _ = l.length := usages_length l

/-- In a sorted table, the first `capacity - count` slots are the
empty ones (usage id 0): justifies the assertion at the insertion
index of `value_set`. -/
lemma zeros_prefix {l : List Item} (hs : usageSorted l) {i : Nat}
    (hi : i < l.length - (nzUsages l).length) :
    (l.getD i ⟨0, 0⟩).usage_id = 0 := by
  by_contra hnz
  have hilen : i < l.length := by omega
  have hall : ∀ x ∈ (usages l).drop i, x ≠ 0 := by
    intro x hx
    obtain ⟨n, hn, hxe⟩ := List.mem_iff_getElem.mp hx
    rw [List.getElem_drop] at hxe
    have hlt : i + n < l.length := by
      rw [List.length_drop, usages_length] at hn; omega
    have hmono := usageSorted_mono hs (Nat.le_add_right i n) hlt
    have hltU : i + n < (usages l).length := by rw [usages_length]; exact hlt
    rw [usages_getElem l hlt hltU] at hxe
    subst hxe
    intro h0
    rw [h0] at hmono
    omega
  have hdroplen : ((usages l).drop i).filter (fun u => decide (u ≠ 0))
      = (usages l).drop i :=
    List.filter_eq_self.mpr (fun a ha => by simpa using hall a ha)
  have hsplit : (nzUsages l).length
      = (((usages l).take i).filter (fun u => decide (u ≠ 0))).length
        + (((usages l).drop i).filter (fun u => decide (u ≠ 0))).length := by
    unfold nzUsages
    conv_lhs => rw [← List.take_append_drop i (usages l)]
    rw [List.filter_append, List.length_append]
  rw [hdroplen] at hsplit
  have hdl : ((usages l).drop i).length = l.length - i := by
    rw [List.length_drop, usages_length]
  omega

lemma mem_usages {l : List Item} {i : Nat} (h : i < l.length) :
    (l.getD i ⟨0, 0⟩).usage_id ∈ usages l := by
  have h2 : i < (usages l).length := by rw [usages_length]; exact h
  rw [← usages_getElem l h h2]
  exact List.getElem_mem h2

lemma not_mem_usages_of_bsearch_none {l : List Item} {u : Nat}
    (hs : usageSorted l) (h : bsearchIdx l u = none) : u ∉ usages l := by
  intro hmem
  obtain ⟨n, hn, hne⟩ := List.mem_iff_getElem.mp hmem
  have hn' : n < l.length := by rwa [usages_length] at hn
  rw [usages_getElem l hn' hn] at hne
  exact bsearchIdx_none hs h n hn' hne

lemma bsearch_found_of_mem {l : List Item} {u : Nat}
    (hs : usageSorted l) (hmem : u ∈ usages l) :
    ∃ i, bsearchIdx l u = some i := by
  cases hfind : bsearchIdx l u with
  | some i => exact ⟨i, rfl⟩
  | none => exact absurd hmem (not_mem_usages_of_bsearch_none hs hfind)

lemma Inv0_sorted_wrap {X : List Item} {c : Nat}
    (hnd : (nzUsages X).Nodup) (hcnt : c = (nzUsages X).length)
    (hle : c ≤ X.length) :
    Inv0 ⟨sortItems X, c⟩ := by
  refine ⟨sortItems_sorted X, ?_, ?_, ?_⟩
  · exact ((nzUsages_perm (sortItems_perm X)).nodup_iff).mpr hnd
  · rw [hcnt]
    exact ((nzUsages_perm (sortItems_perm X)).length_eq).symm
  · rw [sortItems_length]
    exact hle

/-- `value_set` preserves the table invariant, for any usage id and
delta. -/
lemma value_set_Inv0 {t : Items} (hInv : Inv0 t) {u : Nat} (hu : u ≠ 0)
    (d : Int) : Inv0 (value_set t u d).2 := by
  obtain ⟨hs, hnd, hcnt, hle⟩ := hInv
  cases hfind : bsearchIdx t.item u with
  | some i =>
    obtain ⟨hi, hui⟩ := bsearchIdx_some hfind
    have hiU : i < (usages t.item).length := by rw [usages_length]; exact hi
    have hUi : (usages t.item)[i] = (t.item.getD i ⟨0, 0⟩).usage_id :=
      usages_getElem _ hi hiU
    by_cases hv : (t.item.getD i ⟨0, 0⟩).value + d = 0
    · have hUnz : (usages t.item)[i] ≠ 0 := by rw [hUi, hui]; exact hu
      have hc1 : 1 ≤ t.item_count := by
        have hm : (usages t.item)[i]
            ∈ (usages t.item).filter (fun x => decide (x ≠ 0)) :=
          List.mem_filter.mpr ⟨List.getElem_mem _, by simpa using hUnz⟩
        have hpos := List.length_pos_of_mem hm
        rw [hcnt]
        exact hpos
      rw [value_set_found_zero hfind hv hc1]
      apply Inv0_sorted_wrap
      · show ((usages (t.item.set i ⟨0, 0⟩)).filter _).Nodup
        rw [usages_set]
        exact nz_set_zero_nodup _ hiU hnd
      · show t.item_count - 1 = ((usages (t.item.set i ⟨0, 0⟩)).filter _).length
        rw [usages_set]
        show t.item_count - 1 = (((usages t.item).set i 0).filter _).length
        have hcnt2 : t.item_count
            = ((usages t.item).filter (fun x => decide (x ≠ 0))).length := hcnt
        have := nz_set_zero_len (usages t.item) hiU hUnz
        omega
      · rw [List.length_set]
        omega
    · rw [value_set_found_ne hfind hv]
      have hset : usages (t.item.set i
          ⟨(t.item.getD i ⟨0, 0⟩).usage_id, (t.item.getD i ⟨0, 0⟩).value + d⟩)
          = usages t.item := by
        rw [usages_set]
        show (usages t.item).set i ((t.item.getD i ⟨0, 0⟩).usage_id) = usages t.item
        rw [← hUi]
        exact set_self_nat _ hiU
      refine ⟨?_, ?_, ?_, ?_⟩
      · rw [usageSorted_iff, hset, ← usageSorted_iff]
        exact hs
      · show ((usages (t.item.set i _)).filter _).Nodup
        rw [hset]
        exact hnd
      · show t.item_count = ((usages (t.item.set i _)).filter _).length
        rw [hset]
        exact hcnt
      · simp only [List.length_set]
        exact hle
  | none =>
    by_cases hdneg : d < 0
    · rw [value_set_none_neg hfind hdneg]
      exact ⟨hs, hnd, hcnt, hle⟩
    · by_cases hroom : t.item_count < t.item.length
      · rw [value_set_none_insert hfind hdneg hroom]
        have hidx : t.item.length - t.item_count - 1 < t.item.length := by omega
        have hidxU : t.item.length - t.item_count - 1 < (usages t.item).length := by
          rw [usages_length]; exact hidx
        have hz : (t.item.getD (t.item.length - t.item_count - 1) ⟨0, 0⟩).usage_id = 0 := by
          apply zeros_prefix hs
          omega
        have hzU : (usages t.item)[t.item.length - t.item_count - 1] = 0 := by
          rw [usages_getElem _ hidx hidxU]
          exact hz
        have hmem : u ∉ usages t.item := not_mem_usages_of_bsearch_none hs hfind
        apply Inv0_sorted_wrap
        · show ((usages (t.item.set _ ⟨u, d⟩)).filter _).Nodup
          rw [usages_set]
          exact nz_set_insert_nodup _ hidxU hzU hu hmem hnd
        · show t.item_count + 1 = ((usages (t.item.set _ ⟨u, d⟩)).filter _).length
          rw [usages_set]
          show t.item_count + 1
            = (((usages t.item).set (t.item.length - t.item_count - 1) u).filter _).length
          have hcnt2 : t.item_count
              = ((usages t.item).filter (fun x => decide (x ≠ 0))).length := hcnt
          have := nz_set_insert_len (usages t.item) hidxU hzU hu
          omega
        · rw [List.length_set]
          omega
      · rw [value_set_none_full hfind hdneg (by omega)]
        exact ⟨hs, hnd, hcnt, hle⟩

lemma ValOK_perm {l₁ l₂ : List Item} (h : List.Perm l₁ l₂) (hv : ValOK l₁) :
    ValOK l₂ := fun it hit => hv it (h.mem_iff.mpr hit)

lemma ValOK_set {l : List Item} (hv : ValOK l) {a : Item}
    (ha : (a.usage_id = 0 → a.value = 0) ∧ (a.usage_id ≠ 0 → 0 < a.value))
    (i : Nat) : ValOK (l.set i a) := by
  intro it hit
  rcases List.mem_or_eq_of_mem_set hit with h | rfl
  · exact hv it h
  · exact ha

/-- `value_set` with a unit delta (the only deltas the module feeds
it) preserves the runtime value constraints. -/
lemma value_set_ValOK {t : Items} (hInv : Inv0 t) (hV : ValOK t.item)
    {u : Nat} (hu : u ≠ 0) {d : Int} (hd : d = 1 ∨ d = -1) :
    ValOK (value_set t u d).2.item := by
  obtain ⟨hs, hnd, hcnt, hle⟩ := hInv
  cases hfind : bsearchIdx t.item u with
  | some i =>
    obtain ⟨hi, hui⟩ := bsearchIdx_some hfind
    have hmem : t.item.getD i ⟨0, 0⟩ ∈ t.item := by
      rw [List.getD_eq_getElem _ _ hi]
      exact List.getElem_mem hi
    have hvpos : 0 < (t.item.getD i ⟨0, 0⟩).value :=
      (hV _ hmem).2 (by rw [hui]; exact hu)
    by_cases hv : (t.item.getD i ⟨0, 0⟩).value + d = 0
    · have hc1 : 1 ≤ t.item_count := by
        have hiU : i < (usages t.item).length := by rw [usages_length]; exact hi
        have hUnz : (usages t.item)[i] ≠ 0 := by
          rw [usages_getElem _ hi hiU, hui]; exact hu
        have hm : (usages t.item)[i]
            ∈ (usages t.item).filter (fun x => decide (x ≠ 0)) :=
          List.mem_filter.mpr ⟨List.getElem_mem _, by simpa using hUnz⟩
        have hpos := List.length_pos_of_mem hm
        rw [hcnt]; exact hpos
      rw [value_set_found_zero hfind hv hc1]
      show ValOK (sortItems (t.item.set i ⟨0, 0⟩))
      exact ValOK_perm (sortItems_perm _).symm
        (ValOK_set hV (by simp) i)
    · rw [value_set_found_ne hfind hv]
      show ValOK (t.item.set i _)
      apply ValOK_set hV _ i
      constructor
      · intro h0
        rw [show (⟨(t.item.getD i ⟨0, 0⟩).usage_id,
            (t.item.getD i ⟨0, 0⟩).value + d⟩ : Item).usage_id
            = (t.item.getD i ⟨0, 0⟩).usage_id from rfl, hui] at h0
        exact absurd h0 hu
      · intro _
        show 0 < (t.item.getD i ⟨0, 0⟩).value + d
        rcases hd with rfl | rfl
        · omega
        · omega
  | none =>
    by_cases hdneg : d < 0
    · rw [value_set_none_neg hfind hdneg]
      exact hV
    · by_cases hroom : t.item_count < t.item.length
      · rw [value_set_none_insert hfind hdneg hroom]
        show ValOK (sortItems _)
        apply ValOK_perm (sortItems_perm _).symm
        apply ValOK_set hV _ _
        constructor
        · intro h0
          exact absurd h0 hu
        · intro _
          show (0 : Int) < d
          rcases hd with rfl | rfl
          · omega
          · omega
      · rw [value_set_none_full hfind hdneg (by omega)]
        exact hV

lemma Inv4_empty (cap : Nat) : Inv4 (emptyItems cap) := by
  refine ⟨⟨?_, ?_, ?_, ?_⟩, ?_⟩
  · rw [usageSorted, List.pairwise_iff_getElem]
    intro i j hi hj hij
    simp [emptyItems] at hi hj ⊢
  · show ((usages (List.replicate cap ⟨0, 0⟩)).filter _).Nodup
    simp [usages, List.map_replicate]
  · show 0 = ((usages (List.replicate cap ⟨0, 0⟩)).filter _).length
    simp [usages, List.map_replicate]
  · simp [emptyItems]
  · intro it hit
    simp only [emptyItems] at hit
    have := List.eq_of_mem_replicate hit
    subst this
    exact ⟨fun _ => rfl, fun h => absurd rfl h⟩

lemma value_set_Inv4 {t : Items} (h : Inv4 t) {u : Nat} (hu : u ≠ 0)
    {d : Int} (hd : d = 1 ∨ d = -1) : Inv4 (value_set t u d).2 :=
  ⟨value_set_Inv0 h.1 hu d, value_set_ValOK h.1 h.2 hu hd⟩

lemma applySeq_Inv4 {t : Items} (h : Inv4 t) :
    ∀ seq : List (Nat × Int),
      (∀ p ∈ seq, p.1 ≠ 0 ∧ (p.2 = 1 ∨ p.2 = -1)) →
      Inv4 (applySeq t seq) := by
  intro seq
  induction seq generalizing t with
  | nil => intro _; exact h
  | cons p rest ihr =>
    intro hseq
    have hp := hseq p (List.mem_cons_self _ _)
    show Inv4 (applySeq (value_set t p.1 p.2).2 rest)
    exact ihr (value_set_Inv4 h hp.1 hp.2)
      (fun q hq => hseq q (List.mem_cons_of_mem _ hq))

/-- An orphaned release: a negative delta for a usage id absent from a
sorted table leaves the table unchanged and reports no change. -/
lemma value_set_orphan {t : Items} (hs : usageSorted t.item) {u : Nat}
    (hnm : u ∉ usages t.item) {d : Int} (hd : d < 0) :
    value_set t u d = (false, t) := by
  cases hfind : bsearchIdx t.item u with
  | some i =>
    obtain ⟨hi, hui⟩ := bsearchIdx_some hfind
    exact absurd (hui ▸ mem_usages hi) hnm
  | none => exact value_set_none_neg hfind hd

lemma sendOne_eventq (st : HState) (tr : Target) :
    (sendOne st tr).eventq = st.eventq ∧
    (sendOne st tr).eventq_len = st.eventq_len ∧
    (sendOne st tr).state = st.state ∧
    (sendOne st tr).itemsKeyboard = st.itemsKeyboard ∧
    (sendOne st tr).itemsMouse = st.itemsMouse ∧
    (sendOne st tr).itemsMplayer = st.itemsMplayer := by
  cases tr <;> simp [sendOne, send_report_keyboard, send_report_mouse]

lemma sendOne_out (st : HState) (tr : Target) (htr : tr ≠ Target.mplayer) :
    ∃ r, (sendOne st tr).out = st.out ++ [r] ∧ kindOf r = some tr := by
  cases tr with
  | keyboard =>
    exact ⟨OutEvent.keyboard (keyboardKeys (getItems st .keyboard).item) 0,
      by simp [sendOne, send_report_keyboard], rfl⟩
  | mouse =>
    exact ⟨OutEvent.mouse st.last_dx st.last_dy st.wheel_acc
      (mouseButtonBm (getItems st .mouse).item),
      by simp [sendOne, send_report_mouse], rfl⟩
  | mplayer => exact absurd rfl htr

lemma report_sendAux_eventq : ∀ (fuel : Nat) (tr : Target) (st : HState),
    (report_sendAux fuel tr st).eventq = st.eventq ∧
    (report_sendAux fuel tr st).eventq_len = st.eventq_len ∧
    (report_sendAux fuel tr st).itemsKeyboard = st.itemsKeyboard ∧
    (report_sendAux fuel tr st).itemsMouse = st.itemsMouse ∧
    (report_sendAux fuel tr st).itemsMplayer = st.itemsMplayer := by
  intro fuel
  induction fuel with
  | zero => intro tr st; simp [report_sendAux]
  | succ fuel ih =>
    intro tr st
    simp only [report_sendAux]
    obtain ⟨h1, h2, _, h4, h5, h6⟩ := sendOne_eventq st tr
    split
    · obtain ⟨g1, g2, g3, g4, g5⟩ := ih .mouse (sendOne st tr)
      exact ⟨by rw [g1, h1], by rw [g2, h2], by rw [g3, h4], by rw [g4, h5], by rw [g5, h6]⟩
    · exact ⟨h1, h2, h4, h5, h6⟩

lemma report_sendAux_state (fuel : Nat) (tr : Target) (st : HState) :
    (report_sendAux (fuel + 1) tr st).state = .connectedBusy := by
  simp only [report_sendAux]

lemma report_send_state (tr : Target) (st : HState) :
    (report_send tr st).state = .connectedBusy :=
  report_sendAux_state 2 tr st

lemma report_send_eventq (tr : Target) (st : HState) :
    (report_send tr st).eventq = st.eventq ∧
    (report_send tr st).eventq_len = st.eventq_len :=
  ⟨(report_sendAux_eventq 3 tr st).1, (report_sendAux_eventq 3 tr st).2.1⟩

lemma report_sendAux_out : ∀ (fuel : Nat) (tr : Target) (st : HState),
    ∃ l, (report_sendAux fuel tr st).out = st.out ++ l := by
  intro fuel
  induction fuel with
  | zero => intro tr st; exact ⟨[], by simp [report_sendAux]⟩
  | succ fuel ih =>
    intro tr st
    simp only [report_sendAux]
    split
    · obtain ⟨l1, hl1⟩ := ih .mouse (sendOne st tr)
      cases tr with
      | keyboard =>
        refine ⟨OutEvent.keyboard (keyboardKeys (getItems st .keyboard).item) 0 :: l1, ?_⟩
        show (report_sendAux fuel .mouse (sendOne st .keyboard)).out = _
        rw [hl1]
        simp [sendOne, send_report_keyboard]
      | mouse =>
        refine ⟨OutEvent.mouse st.last_dx st.last_dy st.wheel_acc
          (mouseButtonBm (getItems st .mouse).item) :: l1, ?_⟩
        show (report_sendAux fuel .mouse (sendOne st .mouse)).out = _
        rw [hl1]
        simp [sendOne, send_report_mouse]
      | mplayer =>
        refine ⟨l1, ?_⟩
        show (report_sendAux fuel .mouse (sendOne st .mplayer)).out = _
        rw [hl1]
        simp [sendOne]
    · cases tr with
      | keyboard =>
        exact ⟨[OutEvent.keyboard (keyboardKeys (getItems st .keyboard).item) 0],
          by simp [sendOne, send_report_keyboard]⟩
      | mouse =>
        exact ⟨[OutEvent.mouse st.last_dx st.last_dy st.wheel_acc
          (mouseButtonBm (getItems st .mouse).item)],
          by simp [sendOne, send_report_mouse]⟩
      | mplayer => exact ⟨[], by simp [sendOne]⟩

lemma report_sendAux_step (fuel : Nat) (tr : Target) (st : HState) :
    report_sendAux (fuel + 1) tr st =
      { (if getCnt (sendOne st tr) tr = 1
         then report_sendAux fuel .mouse (sendOne st tr)
         else sendOne st tr) with state := .connectedBusy } := rfl

lemma report_sendAux_zero_acc : ∀ (fuel : Nat) (tr : Target) (st : HState),
    st.last_dx = 0 → st.last_dy = 0 → st.wheel_acc = 0 →
      (report_sendAux fuel tr st).last_dx = 0 ∧
      (report_sendAux fuel tr st).last_dy = 0 ∧
      (report_sendAux fuel tr st).wheel_acc = 0 := by
  intro fuel
  induction fuel with
  | zero =>
    intro tr st h1 h2 h3
    simp [report_sendAux, h1, h2, h3]
  | succ fuel ih =>
    intro tr st h1 h2 h3
    rw [report_sendAux_step]
    have hz : (sendOne st tr).last_dx = 0 ∧ (sendOne st tr).last_dy = 0 ∧
        (sendOne st tr).wheel_acc = 0 := by
      cases tr <;> simp [sendOne, send_report_keyboard, send_report_mouse, h1, h2, h3]
    split
    · obtain ⟨g1, g2, g3⟩ := ih .mouse (sendOne st tr) hz.1 hz.2.1 hz.2.2
      exact ⟨g1, g2, g3⟩
    · exact hz

/-- Any `report_send` for a keyboard or mouse target first appends
the report of that kind built from the current state. -/
lemma report_send_out (tr : Target) (st : HState) (htr : tr ≠ Target.mplayer) :
    ∃ r extra, (report_send tr st).out = st.out ++ r :: extra ∧ kindOf r = some tr := by
  obtain ⟨r, hr, hkind⟩ := sendOne_out st tr htr
  rw [report_send, report_sendAux_step]
  by_cases hc : getCnt (sendOne st tr) tr = 1
  · rw [if_pos hc]
    obtain ⟨l1, hl1⟩ := report_sendAux_out 2 .mouse (sendOne st tr)
    show ∃ r2 extra, (report_sendAux 2 .mouse (sendOne st tr)).out
        = st.out ++ r2 :: extra ∧ kindOf r2 = some tr
    exact ⟨r, l1, by rw [hl1, hr, List.append_assoc]; rfl, hkind⟩
  · rw [if_neg hc]
    show ∃ r2 extra, (sendOne st tr).out = st.out ++ r2 :: extra ∧ kindOf r2 = some tr
    exact ⟨r, [], by rw [hr], hkind⟩

/-- `report_send` on the mouse target dispatches, first, the mouse
report carrying the current pending accumulators and button bitmap,
and leaves the accumulators zeroed. -/
lemma report_send_mouse_out (st : HState) :
    (∃ extra, (report_send .mouse st).out
      = st.out ++ OutEvent.mouse st.last_dx st.last_dy st.wheel_acc
          (mouseButtonBm (getItems st .mouse).item) :: extra) ∧
    (report_send .mouse st).last_dx = 0 ∧
    (report_send .mouse st).last_dy = 0 ∧
    (report_send .mouse st).wheel_acc = 0 := by
  have hout1 : (sendOne st .mouse).out
      = st.out ++ [OutEvent.mouse st.last_dx st.last_dy st.wheel_acc
          (mouseButtonBm (getItems st .mouse).item)] := by
    simp [sendOne, send_report_mouse]
  have hz : (sendOne st .mouse).last_dx = 0 ∧ (sendOne st .mouse).last_dy = 0 ∧
      (sendOne st .mouse).wheel_acc = 0 := by
    simp [sendOne, send_report_mouse]
  rw [report_send, report_sendAux_step]
  by_cases hc : getCnt (sendOne st .mouse) .mouse = 1
  · rw [if_pos hc]
    obtain ⟨l1, hl1⟩ := report_sendAux_out 2 .mouse (sendOne st .mouse)
    obtain ⟨g1, g2, g3⟩ := report_sendAux_zero_acc 2 .mouse (sendOne st .mouse)
      hz.1 hz.2.1 hz.2.2
    refine ⟨⟨l1, ?_⟩, g1, g2, g3⟩
    show (report_sendAux 2 .mouse (sendOne st .mouse)).out = _
    rw [hl1, hout1, List.append_assoc]
    rfl
  · rw [if_neg hc]
    exact ⟨⟨[], hout1⟩, hz.1, hz.2.1, hz.2.2⟩

lemma setItems_fields (st : HState) (tr : Target) (t : Items) :
    (setItems st tr t).eventq = st.eventq ∧
    (setItems st tr t).eventq_len = st.eventq_len ∧
    (setItems st tr t).state = st.state ∧
    (setItems st tr t).out = st.out ∧
    (setItems st tr t).last_dx = st.last_dx ∧
    (setItems st tr t).last_dy = st.last_dy ∧
    (setItems st tr t).wheel_acc = st.wheel_acc := by
  cases tr <;> simp [setItems]

lemma setCnt_fields (st : HState) (tr : Target) (n : Nat) :
    (setCnt st tr n).eventq = st.eventq ∧
    (setCnt st tr n).state = st.state ∧
    (setCnt st tr n).out = st.out ∧
    (setCnt st tr n).last_dx = st.last_dx ∧
    (setCnt st tr n).last_dy = st.last_dy ∧
    (setCnt st tr n).wheel_acc = st.wheel_acc ∧
    (setCnt st tr n).fatal = st.fatal := by
  cases tr <;> simp [setCnt]

lemma getItems_qupdate (st : HState) (q : List ItemEvent) (n : Nat) (tr : Target) :
    getItems { st with eventq := q, eventq_len := n } tr = getItems st tr := by
  cases tr <;> rfl

/-- Characterisation of one drain-loop iteration. -/
lemma drainStep_char (st : HState) (ev : ItemEvent) (rest : List ItemEvent) :
    (drainStep st ev rest).2
      = (value_set (getItems st ev.tr) ev.item.usage_id ev.item.value).1 ∧
    ((drainStep st ev rest).2 = false →
       (drainStep st ev rest).1.eventq = rest ∧
       (drainStep st ev rest).1.state = st.state ∧
       (drainStep st ev rest).1.out = st.out ∧
       (drainStep st ev rest).1.last_dx = st.last_dx ∧
       (drainStep st ev rest).1.last_dy = st.last_dy ∧
       (drainStep st ev rest).1.wheel_acc = st.wheel_acc) ∧
    ((drainStep st ev rest).2 = true →
       ∃ st2, (drainStep st ev rest).1 = report_send ev.tr st2 ∧
         st2.out = st.out ∧ st2.eventq = rest ∧
         st2.last_dx = st.last_dx ∧ st2.last_dy = st.last_dy ∧
         st2.wheel_acc = st.wheel_acc) := by
  simp only [drainStep]
  rw [getItems_qupdate]
  rcases hv : value_set (getItems st ev.tr) ev.item.usage_id ev.item.value
    with ⟨changed, t2⟩
  dsimp only
  obtain ⟨f1, f2, f3, f4, f5, f6, f7⟩ :=
    setItems_fields { st with eventq := rest, eventq_len := st.eventq_len - 1 } ev.tr t2
  rcases changed with _ | _
  · refine ⟨by simp, ?_, by simp⟩
    intro _
    simp only [if_neg (by simp : ¬ (false = true))]
    exact ⟨f1, f3, f4, f5, f6, f7⟩
  · refine ⟨by simp, by simp, ?_⟩
    intro _
    refine ⟨setItems { st with eventq := rest, eventq_len := st.eventq_len - 1 } ev.tr t2,
      by simp, f4, f1, f5, f6, f7⟩

/-- When the drain loop finishes with no table change, it has drained
the whole queue, gone CONNECTED_IDLE, dispatched nothing and left the
mouse accumulators untouched. -/
lemma drainLoop_false : ∀ (fuel : Nat) (st : HState) (u : Bool),
    st.eventq.length < fuel → (drainLoop fuel st u).2 = false →
      (drainLoop fuel st u).1.eventq = [] ∧
      (drainLoop fuel st u).1.state = .connectedIdle ∧
      (drainLoop fuel st u).1.out = st.out ∧
      (drainLoop fuel st u).1.last_dx = st.last_dx ∧
      (drainLoop fuel st u).1.last_dy = st.last_dy ∧
      (drainLoop fuel st u).1.wheel_acc = st.wheel_acc := by
  intro fuel
  induction fuel with
  | zero => intro st u hf; omega
  | succ fuel ih =>
    intro st u hf hfalse
    rw [drainLoop] at hfalse ⊢
    cases hq : st.eventq with
    | nil => simp [hq]
    | cons ev rest =>
      simp only [hq] at hfalse ⊢
      obtain ⟨hc1, hc2, hc3⟩ := drainStep_char st ev rest
      rcases hval : (drainStep st ev rest).2 with _ | _
      · rw [if_neg (by simp [hval])] at hfalse ⊢
        obtain ⟨f1, f2, f3, f4, f5, f6⟩ := hc2 hval
        have hqlen : (drainStep st ev rest).1.eventq.length < fuel := by
          rw [f1]
          have := congrArg List.length hq
          simp only [List.length_cons] at this
          omega
        obtain ⟨g1, g2, g3, g4, g5, g6⟩ := ih (drainStep st ev rest).1 false hqlen hfalse
        exact ⟨g1, g2, by rw [g3, f3], by rw [g4, f4], by rw [g5, f5], by rw [g6, f6]⟩
      · rw [if_pos (by simp [hval])] at hfalse
        exact absurd hfalse (by simp)

/-- When the drain loop reports a change, some drained event's
`value_set` returned true and the loop ended right after its
`report_send`; everything before it changed nothing. -/
lemma drainLoop_true : ∀ (fuel : Nat) (st : HState) (u : Bool),
    st.eventq.length < fuel → (drainLoop fuel st u).2 = true →
      (u = false ∨ st.eventq ≠ []) →
      ∃ pre ev rest stPre,
        st.eventq = pre ++ ev :: rest ∧
        stPre.eventq = ev :: rest ∧
        stPre.out = st.out ∧
        stPre.last_dx = st.last_dx ∧
        stPre.last_dy = st.last_dy ∧
        stPre.wheel_acc = st.wheel_acc ∧
        (drainStep stPre ev rest).2 = true ∧
        (drainLoop fuel st u).1 = (drainStep stPre ev rest).1 := by
  intro fuel
  induction fuel with
  | zero => intro st u hf; omega
  | succ fuel ih =>
    intro st u hf htrue hside
    rw [drainLoop] at htrue ⊢
    cases hq : st.eventq with
    | nil =>
      simp only [hq] at htrue
      rcases hside with rfl | hne
      · exact absurd htrue (by simp)
      · exact absurd hq hne
    | cons ev rest =>
      simp only [hq] at htrue ⊢
      rcases hval : (drainStep st ev rest).2 with _ | _
      · rw [if_neg (by simp [hval])] at htrue ⊢
        obtain ⟨f1, f2, f3, f4, f5, f6⟩ := (drainStep_char st ev rest).2.1 hval
        have hqlen : (drainStep st ev rest).1.eventq.length < fuel := by
          rw [f1]
          have := congrArg List.length hq
          simp only [List.length_cons] at this
          omega
        obtain ⟨pre2, ev2, rest2, stPre, g1, g2, g3, g4, g5, g6, g7, g8⟩ :=
          ih (drainStep st ev rest).1 false hqlen htrue (Or.inl rfl)
        refine ⟨ev :: pre2, ev2, rest2, stPre, ?_, g2, by rw [g3, f3],
          by rw [g4, f4], by rw [g5, f5], by rw [g6, f6], g7, g8⟩
        rw [f1] at g1
        simp [hq, g1]
      · rw [if_pos (by simp [hval])]
        refine ⟨[], ev, rest, st, by simp [hq], hq, rfl, rfl, rfl, rfl, hval, by simp⟩

/-! ### Queue length bounds for `enqueue` -/

lemma cleanupLoop_le (q : List ItemEvent) (fv : Nat) :
    ∀ (fuel cur maxf purged : Nat), purged ≤ q.length →
      cleanupLoop q fv fuel cur maxf purged ≤ q.length := by
  intro fuel
  induction fuel with
  | zero => intro cur maxf purged hp; exact hp
  | succ fuel ih =>
    intro cur maxf purged hp
    rw [cleanupLoop]
    cases hcur : q[cur]? with
    | none => exact hp
    | some e =>
      dsimp only
      have hlt : cur < q.length := by
        by_contra hge
        rw [List.getElem?_eq_none (by omega)] at hcur
        exact absurd hcur (by simp)
      by_cases hv : 0 < e.item.value
      · rw [if_pos hv]
        cases hscan : pairScan q fv cur with
        | none => exact hp
        | some j =>
          dsimp only
          by_cases hfv : cur = fv
          · rw [if_pos hfv]; exact hp
          · rw [if_neg hfv]
            by_cases hmx : cur = (if maxf < j then j else maxf)
            · rw [if_pos hmx]; exact ih _ _ _ (by omega)
            · rw [if_neg hmx]; exact ih _ _ _ hp
      · rw [if_neg hv]
        by_cases hfv : cur = fv
        · rw [if_pos hfv]; exact hp
        · rw [if_neg hfv]
          by_cases hmx : cur = maxf
          · rw [if_pos hmx]; exact ih _ _ _ (by omega)
          · rw [if_neg hmx]; exact ih _ _ _ hp

lemma eventq_cleanup_count_le (expiration now : Nat) (q : List ItemEvent) :
    eventq_cleanup_count expiration now q ≤ q.length :=
  cleanupLoop_le q _ _ 0 0 0 (by omega)

lemma cleanupSt_QWF {st : HState} (h : QWF st) (expiration now : Nat) :
    QWF (cleanupSt expiration now st) ∧
    (cleanupSt expiration now st).eventq_len ≤ st.eventq_len := by
  have hle := eventq_cleanup_count_le expiration now st.eventq
  unfold QWF cleanupSt eventq_cleanup at *
  constructor
  · simp only [List.length_drop]
    omega
  · simp only
    omega

lemma enqueueRetry_QWF (expiration qcap : Nat) :
    ∀ (q0 : List ItemEvent) (st : HState), QWF st →
      QWF (enqueueRetry expiration qcap q0 st) ∧
      (enqueueRetry expiration qcap q0 st).eventq_len ≤ st.eventq_len := by
  intro q0
  induction q0 with
  | nil => intro st h; exact ⟨h, le_refl _⟩
  | cons e rest ih =>
    intro st h
    rw [enqueueRetry]
    obtain ⟨h1, h2⟩ := cleanupSt_QWF h expiration (u32add e.timestamp expiration)
    split
    · obtain ⟨g1, g2⟩ := ih _ h1
      exact ⟨g1, le_trans g2 h2⟩
    · exact ⟨h1, h2⟩

lemma enqueueOverflow_len {st1 : HState} (h : QWF st1) (expiration qcap : Nat)
    (hcap : 1 ≤ qcap) :
    QWF (enqueueOverflow expiration qcap st1) ∧
    (enqueueOverflow expiration qcap st1).eventq_len + 1 ≤ qcap ∨
    QWF (enqueueOverflow expiration qcap st1) ∧
    (enqueueOverflow expiration qcap st1).eventq_len = 0 := by
  unfold enqueueOverflow
  by_cases hfull : qcap ≤ st1.eventq_len
  · rw [if_pos hfull]
    by_cases hdisc : st1.state = .disconnected
    · rw [if_pos hdisc]
      obtain ⟨g1, g2⟩ := enqueueRetry_QWF expiration qcap st1.eventq st1 h
      by_cases hfull2 : qcap ≤ (enqueueRetry expiration qcap st1.eventq st1).eventq_len
      · rw [if_pos hfull2]
        right
        exact ⟨by simp [QWF, eventq_reset, zeroAllItems], by simp [eventq_reset, zeroAllItems]⟩
      · rw [if_neg hfull2]
        left
        exact ⟨g1, by omega⟩
    · rw [if_neg hdisc]
      by_cases hfull2 : qcap ≤ st1.eventq_len
      · rw [if_pos hfull2]
        right
        exact ⟨by simp [QWF, eventq_reset, zeroAllItems], by simp [eventq_reset, zeroAllItems]⟩
      · omega
  · rw [if_neg hfull]
    left
    exact ⟨h, by omega⟩

/-- `enqueue` keeps the queue length within the configured capacity:
the length-tracking invariant is preserved and the new length never
exceeds `qcap`. -/
lemma enqueue_len {st : HState} (h : QWF st) {qcap : Nat} (hcap : 1 ≤ qcap)
    (hlen : st.eventq_len ≤ qcap) (expiration now : Nat) (allocOk : Bool)
    (tr : Target) (usage_id : Nat) (report : Int) :
    QWF (enqueue expiration qcap now allocOk tr usage_id report st) ∧
    (enqueue expiration qcap now allocOk tr usage_id report st).eventq_len ≤ qcap ∧
    (enqueue expiration qcap now allocOk tr usage_id report st).eventq.length ≤ qcap := by
  unfold enqueue
  have h1 := cleanupSt_QWF h expiration now
  have hov := enqueueOverflow_len h1.1 expiration qcap hcap
  have hA : QWF (enqueueOverflow expiration qcap (cleanupSt expiration now st)) := by
    rcases hov with ⟨g1, _⟩ | ⟨g1, _⟩ <;> exact g1
  have hB : (enqueueOverflow expiration qcap (cleanupSt expiration now st)).eventq_len + 1
      ≤ qcap := by
    rcases hov with ⟨_, g2⟩ | ⟨_, g2⟩ <;> omega
  unfold QWF at hA
  rcases allocOk with _ | _
  · refine ⟨hA, ?_, ?_⟩
    · show (enqueueOverflow expiration qcap (cleanupSt expiration now st)).eventq_len ≤ qcap
      omega
    · show (enqueueOverflow expiration qcap (cleanupSt expiration now st)).eventq.length ≤ qcap
      omega
  · refine ⟨?_, ?_, ?_⟩
    · show (enqueueOverflow expiration qcap (cleanupSt expiration now st)).eventq_len + 1
        = ((enqueueOverflow expiration qcap (cleanupSt expiration now st)).eventq
            ++ [(⟨⟨usage_id, report⟩, tr, now⟩ : ItemEvent)]).length
      rw [List.length_append, hA]
      rfl
    · show (enqueueOverflow expiration qcap (cleanupSt expiration now st)).eventq_len + 1 ≤ qcap
      omega
    · show ((enqueueOverflow expiration qcap (cleanupSt expiration now st)).eventq
          ++ [(⟨⟨usage_id, report⟩, tr, now⟩ : ItemEvent)]).length ≤ qcap
      rw [List.length_append]
      have hone : ([(⟨⟨usage_id, report⟩, tr, now⟩ : ItemEvent)]).length = 1 := rfl
      omega

/-! ### Mouse bitmap and keyboard key-array characterisations -/

lemma mouseButtonBm_spec {l : List Item}
    (h : ∀ it ∈ l, it.value ≠ 0 → 1 ≤ it.usage_id ∧ it.usage_id ≤ 8) :
    mouseButtonBm l
      = l.foldl (fun bm it => if it.value ≠ 0 then bm ||| 2 ^ (it.usage_id - 1) else bm) 0 := by
  unfold mouseButtonBm
  suffices hgen : ∀ (acc : Nat) (l' : List Item),
      (∀ it ∈ l', it.value ≠ 0 → 1 ≤ it.usage_id ∧ it.usage_id ≤ 8) →
      l'.foldl (fun bm it => if it.value ≠ 0 then bm ||| (2 ^ (it.usage_id - 1) % 256) else bm) acc
        = l'.foldl (fun bm it => if it.value ≠ 0 then bm ||| 2 ^ (it.usage_id - 1) else bm) acc by
    exact hgen 0 l h
  intro acc l' hl'
  induction l' generalizing acc with
  | nil => rfl
  | cons x xs ihx =>
    simp only [List.foldl_cons]
    have hx : (if x.value ≠ 0 then acc ||| (2 ^ (x.usage_id - 1) % 256) else acc)
        = (if x.value ≠ 0 then acc ||| 2 ^ (x.usage_id - 1) else acc) := by
      by_cases hv : x.value ≠ 0
      · rw [if_pos hv, if_pos hv]
        obtain ⟨h1, h2⟩ := hl' x (List.mem_cons_self _ _) hv
        have hb : 2 ^ (x.usage_id - 1) ≤ 2 ^ 7 :=
          Nat.pow_le_pow_right (by omega) (by omega)
        rw [Nat.mod_eq_of_lt (by omega)]
      · rw [if_neg hv, if_neg hv]
    rw [hx]
    exact ihx _ (fun it hit => hl' it (List.mem_cons_of_mem _ hit))

lemma mouseUsagesOk_of {l : List Item}
    (h : ∀ it ∈ l, it.value ≠ 0 → 1 ≤ it.usage_id ∧ it.usage_id ≤ 8) :
    mouseUsagesOk l = true := by
  unfold mouseUsagesOk
  rw [List.all_eq_true]
  intro it hit
  by_cases hv : it.value = 0
  · simp [hv]
  · obtain ⟨h1, h2⟩ := h it hit hv
    simp [hv, h2]
    omega

lemma takeWhile_append_all {p : Item → Bool} :
    ∀ (a b : List Item), (∀ x ∈ a, p x = true) →
      (a ++ b).takeWhile p = a ++ b.takeWhile p := by
  intro a
  induction a with
  | nil => intro b _; rfl
  | cons x xs ihx =>
    intro b hall
    rw [List.cons_append, List.takeWhile_cons, if_pos (hall x (List.mem_cons_self _ _))]
    rw [ihx b (fun y hy => hall y (List.mem_cons_of_mem _ hy))]
    rfl

lemma takeWhile_replicate_zero (z : Nat) :
    (List.replicate z (⟨0, 0⟩ : Item)).takeWhile (fun it => decide (it.value ≠ 0)) = [] := by
  cases z with
  | zero => rfl
  | succ n => rw [List.replicate_succ, List.takeWhile_cons]; simp

/-- Under the runtime invariant the table splits into a zeroed prefix
and a suffix of occupied slots. -/
lemma table_split {t : Items} (h : Inv4 t) :
    t.item.take (t.item.length - t.item_count)
        = List.replicate (t.item.length - t.item_count) (⟨0, 0⟩ : Item) ∧
    (∀ x ∈ t.item.drop (t.item.length - t.item_count), x.usage_id ≠ 0 ∧ 0 < x.value) ∧
    nzUsages t.item = (usages t.item).drop (t.item.length - t.item_count) := by
  obtain ⟨⟨hs, hnd, hcnt, hle⟩, hV⟩ := h
  have hzero : ∀ m, m < t.item.length - t.item_count →
      (t.item.getD m ⟨0, 0⟩).usage_id = 0 := by
    intro m hm
    apply zeros_prefix hs
    rw [← hcnt]
    exact hm
  constructor
  · have hlen : (t.item.take (t.item.length - t.item_count)).length
        = t.item.length - t.item_count := by
      rw [List.length_take]
      omega
    conv_rhs => rw [← hlen]
    apply List.eq_replicate_of_mem
    intro x hx
    obtain ⟨n, hn, hxe⟩ := List.mem_iff_getElem.mp hx
    rw [hlen] at hn
    rw [List.getElem_take] at hxe
    have hnl : n < t.item.length := by omega
    have hu0 : x.usage_id = 0 := by
      have := hzero n hn
      rw [List.getD_eq_getElem _ _ hnl, hxe] at this
      exact this
    have hv0 : x.value = 0 :=
      (hV x (by rw [← hxe]; exact List.getElem_mem hnl)).1 hu0
    cases x with
    | mk xu xv =>
      simp only at hu0 hv0
      rw [hu0, hv0]
  · -- every suffix slot is occupied
    have htake0 : ((usages t.item).take (t.item.length - t.item_count)).filter
        (fun v => decide (v ≠ 0)) = [] := by
      rw [List.filter_eq_nil_iff]
      intro v hv
      obtain ⟨m, hm, hve⟩ := List.mem_iff_getElem.mp hv
      have hm2 : m < t.item.length - t.item_count ∧ m < t.item.length := by
        rw [List.length_take, usages_length, lt_min_iff] at hm
        exact hm
      rw [List.getElem_take] at hve
      have hv0 : v = 0 := by
        have := hzero m hm2.1
        have hmU : m < (usages t.item).length := by
          rw [usages_length]; exact hm2.2
        rw [← hve, usages_getElem t.item hm2.2 hmU]
        exact this
      simp [hv0]
    have hallnz : ∀ v ∈ (usages t.item).drop (t.item.length - t.item_count), v ≠ 0 := by
      have hdroplen : ((usages t.item).drop (t.item.length - t.item_count)).length
          = t.item_count := by
        rw [List.length_drop, usages_length]
        omega
      have hfsplit : (t.item_count : Nat)
          = (((usages t.item).drop (t.item.length - t.item_count)).filter
              (fun v => decide (v ≠ 0))).length := by
        conv_lhs => rw [hcnt]
        show ((usages t.item).filter (fun v => decide (v ≠ 0))).length = _
        conv_lhs => rw [← List.take_append_drop (t.item.length - t.item_count) (usages t.item)]
        rw [List.filter_append, htake0]
        rfl
      have := List.filter_length_eq_length.mp (by rw [← hfsplit, hdroplen])
      intro v hv
      have hvp := this v hv
      simpa using hvp
    constructor
    · intro x hx
      have hxmem : x ∈ t.item := List.mem_of_mem_drop hx
      have hnz : x.usage_id ≠ 0 := by
        apply hallnz x.usage_id
        obtain ⟨n, hn, hxe⟩ := List.mem_iff_getElem.mp hx
        rw [List.mem_iff_getElem]
        have hn2 : n < ((usages t.item).drop (t.item.length - t.item_count)).length := by
          rw [List.length_drop, usages_length]
          rw [List.length_drop] at hn
          omega
        refine ⟨n, hn2, ?_⟩
        rw [List.getElem_drop]
        rw [List.getElem_drop] at hxe
        have hlt : t.item.length - t.item_count + n < t.item.length := by
          rw [List.length_drop] at hn
          omega
        have hltU : t.item.length - t.item_count + n < (usages t.item).length := by
          rw [usages_length]; exact hlt
        rw [usages_getElem t.item hlt hltU]
        rw [List.getD_eq_getElem _ _ hlt, hxe]
      exact ⟨hnz, (hV x hxmem).2 hnz⟩
    · show ((usages t.item).filter (fun v => decide (v ≠ 0))) = _
      conv_lhs => rw [← List.take_append_drop (t.item.length - t.item_count) (usages t.item)]
      rw [List.filter_append, htake0, List.nil_append]
      exact List.filter_eq_self.mpr (fun a ha => by simpa using hallnz a ha)

/-- Under the invariant, `keyboardKeys` copies the occupied suffix of
the table highest-index-first, truncated to `KEYS` slots and
zero-padded. -/
lemma keyboardKeys_char {t : Items} (h : Inv4 t) :
    keyboardKeys t.item
      = (((t.item.drop (t.item.length - t.item_count)).reverse.take KEYS).map
          (fun it => it.usage_id))
        ++ List.replicate
            (KEYS - (((t.item.drop (t.item.length - t.item_count)).reverse.take KEYS).map
              (fun it => it.usage_id)).length) 0 := by
  obtain ⟨hrep, hocc, _⟩ := table_split h
  have hrev : t.item.reverse
      = (t.item.drop (t.item.length - t.item_count)).reverse
        ++ List.replicate (t.item.length - t.item_count) (⟨0, 0⟩ : Item) := by
    conv_lhs => rw [← List.take_append_drop (t.item.length - t.item_count) t.item]
    rw [List.reverse_append, hrep, List.reverse_replicate]
  have hall : ∀ x ∈ (t.item.drop (t.item.length - t.item_count)).reverse,
      (fun it => decide (it.value ≠ 0)) x = true := by
    intro x hx
    have := (hocc x (List.mem_reverse.mp hx)).2
    simp only [decide_eq_true_eq]
    omega
  simp only [keyboardKeys]
  rw [hrev, takeWhile_append_all _ _ hall, takeWhile_replicate_zero, List.append_nil]

/-- Under the invariant, the usage ids copied by `keyboardKeys` are in
strictly descending order. -/
lemma keyboardKeys_desc {t : Items} (h : Inv4 t) :
    ((((t.item.drop (t.item.length - t.item_count)).reverse.take KEYS).map
        (fun it => it.usage_id))).Pairwise (fun a b => b < a) := by
  obtain ⟨⟨hs, hnd, hcnt, hle⟩, hV⟩ := h
  obtain ⟨_, _, hnz⟩ := table_split (⟨⟨hs, hnd, hcnt, hle⟩, hV⟩ : Inv4 t)
  have hsorted : ((usages t.item).drop (t.item.length - t.item_count)).Pairwise
      (fun a b => a ≤ b) :=
    ((usageSorted_iff t.item).mp hs).sublist (List.drop_sublist _ _)
  have hnodup : ((usages t.item).drop (t.item.length - t.item_count)).Nodup := by
    rw [← hnz]; exact hnd
  have hstrict : ((usages t.item).drop (t.item.length - t.item_count)).Pairwise
      (fun a b => a < b) :=
    (hsorted.and hnodup).imp (fun hab => lt_of_le_of_ne hab.1 hab.2)
  have hUdrop : usages (t.item.drop (t.item.length - t.item_count))
      = (usages t.item).drop (t.item.length - t.item_count) := by
    simp [usages, List.map_drop]
  have hentm : (usages (t.item.drop (t.item.length - t.item_count))).Pairwise
      (fun a b => a < b) := by
    rw [hUdrop]; exact hstrict
  have hentp : (t.item.drop (t.item.length - t.item_count)).Pairwise
      (fun a b => a.usage_id < b.usage_id) :=
    List.pairwise_map.mp hentm
  have hrevp : (t.item.drop (t.item.length - t.item_count)).reverse.Pairwise
      (fun a b => b.usage_id < a.usage_id) :=
    List.pairwise_reverse.mpr hentp
  have htakep : ((t.item.drop (t.item.length - t.item_count)).reverse.take KEYS).Pairwise
      (fun a b => b.usage_id < a.usage_id) :=
    hrevp.sublist (List.take_sublist _ _)
  rw [List.pairwise_map]
  exact htakep

lemma hitAdd_pm {hit : Nat} {v : Int} (hv : v = 1 ∨ v = -1) (h1 : 1 ≤ hit)
    (h2 : hit + 1 < 4294967296) :
    ((hitAdd hit v : Nat) : Int) = (hit : Int) + v ∧ hitAdd hit v ≤ hit + 1 := by
  rcases hv with hv | hv <;> subst hv <;> unfold hitAdd <;> constructor <;> omega

lemma pairAux_some_ge (q : List ItemEvent) (u fv : Nat) :
    ∀ fuel hit j r, pairAux q u fv fuel hit j = some r →
      j ≤ r ∧ r < q.length ∧ (j ≤ fv → r < fv) := by
  intro fuel
  induction fuel with
  | zero => intro hit j r h; exact absurd h (by simp [pairAux])
  | succ fuel ih =>
    intro hit j r h
    rw [pairAux] at h
    by_cases hjfv : j = fv
    · rw [if_pos hjfv] at h; exact absurd h (by simp)
    · rw [if_neg hjfv] at h
      cases hq : q[j]? with
      | none => rw [hq] at h; exact absurd h (by simp)
      | some e =>
        rw [hq] at h
        dsimp only at h
        have hjl : j < q.length := by
          by_contra hge
          rw [List.getElem?_eq_none (by omega)] at hq
          exact absurd hq (by simp)
        by_cases hu : e.item.usage_id = u
        · rw [if_pos hu] at h
          by_cases hz : hitAdd hit e.item.value = 0
          · rw [if_pos hz] at h
            have hjr : j = r := by simpa using h
            subst hjr
            exact ⟨le_refl _, hjl, fun hle => by omega⟩
          · rw [if_neg hz] at h
            obtain ⟨h1, h2, h3⟩ := ih _ _ _ h
            exact ⟨by omega, h2, fun hle => h3 (by omega)⟩
        · rw [if_neg hu] at h
          obtain ⟨h1, h2, h3⟩ := ih _ _ _ h
          exact ⟨by omega, h2, fun hle => h3 (by omega)⟩

lemma pairAux_sum (q : List ItemEvent) (u fv : Nat)
    (hval : ∀ e ∈ q, e.item.value = 1 ∨ e.item.value = -1) :
    ∀ fuel hit j r, 1 ≤ hit → hit + fuel < 4294967296 →
      pairAux q u fv fuel hit j = some r →
      (hit : Int) + netRange q u j (r + 1) = 0 := by
  intro fuel
  induction fuel with
  | zero => intro hit j r _ _ h; exact absurd h (by simp [pairAux])
  | succ fuel ih =>
    intro hit j r hh1 hh2 h
    have hge0 := pairAux_some_ge q u fv (fuel + 1) hit j r h
    rw [pairAux] at h
    by_cases hjfv : j = fv
    · rw [if_pos hjfv] at h; exact absurd h (by simp)
    · rw [if_neg hjfv] at h
      cases hq : q[j]? with
      | none => rw [hq] at h; exact absurd h (by simp)
      | some e =>
        rw [hq] at h
        dsimp only at h
        have hjl : j < q.length := by
          by_contra hge
          rw [List.getElem?_eq_none (by omega)] at hq
          exact absurd hq (by simp)
        have hem : e ∈ q := by
          have hje : q[j] = e := by
            rw [List.getElem?_eq_getElem hjl] at hq
            simpa using hq
          rw [← hje]
          exact List.getElem_mem hjl
        have hepm := hval e hem
        by_cases hu : e.item.usage_id = u
        · rw [if_pos hu] at h
          have hpm := hitAdd_pm hepm hh1 (by omega)
          by_cases hz : hitAdd hit e.item.value = 0
          · rw [if_pos hz] at h
            have hjr : j = r := by simpa using h
            subst hjr
            have hnr : netRange q u j (j + 1) = e.item.value := by
              unfold netRange
              rw [Finset.sum_Ico_succ_top (le_refl j), Finset.Ico_self,
                Finset.sum_empty, zero_add]
              unfold contrib
              rw [hq]
              dsimp only
              rw [if_pos hu]
            rw [hnr]
            have hz' := hpm.1
            rw [hz] at hz'
            omega
          · rw [if_neg hz] at h
            have hge1 := pairAux_some_ge q u fv fuel _ _ _ h
            have hih := ih (hitAdd hit e.item.value) (j + 1) r
              (by omega) (by omega) h
            have hsplit : netRange q u j (r + 1)
                = contrib q u j + netRange q u (j + 1) (r + 1) := by
              unfold netRange
              exact Finset.sum_eq_sum_Ico_succ_bot (by omega) _
            have hc : contrib q u j = e.item.value := by
              unfold contrib
              rw [hq]
              dsimp only
              rw [if_pos hu]
            rw [hsplit, hc]
            have hpm1 := hpm.1
            omega
        · rw [if_neg hu] at h
          have hge1 := pairAux_some_ge q u fv fuel _ _ _ h
          have hih := ih hit (j + 1) r hh1 (by omega) h
          have hsplit : netRange q u j (r + 1)
              = contrib q u j + netRange q u (j + 1) (r + 1) := by
            unfold netRange
            exact Finset.sum_eq_sum_Ico_succ_bot (by omega) _
          have hc : contrib q u j = 0 := by
            unfold contrib
            rw [hq]
            dsimp only
            rw [if_neg hu]
          rw [hsplit, hc]
          omega

lemma pairScan_some_lt (q : List ItemEvent) {fv p j : Nat}
    (h : pairScan q fv p = some j) :
    p < j ∧ j < q.length ∧ (p + 1 ≤ fv → j < fv) := by
  unfold pairScan at h
  cases hq : q[p]? with
  | none => rw [hq] at h; exact absurd h (by simp)
  | some e =>
    rw [hq] at h
    dsimp only at h
    obtain ⟨h1, h2, h3⟩ := pairAux_some_ge q _ fv _ _ _ _ h
    exact ⟨by omega, h2, h3⟩

lemma pairScan_sum (q : List ItemEvent) {fv p j : Nat}
    (hval : ∀ e ∈ q, e.item.value = 1 ∨ e.item.value = -1)
    (hlen : q.length + 2 < 4294967296)
    (hpress : pressAt q p = true)
    (h : pairScan q fv p = some j) :
    netRange q (usageAt q p) p (j + 1) = 0 := by
  unfold pairScan at h
  cases hq : q[p]? with
  | none => rw [hq] at h; exact absurd h (by simp)
  | some e =>
    rw [hq] at h
    dsimp only at h
    have hpl : p < q.length := by
      by_contra hge
      rw [List.getElem?_eq_none (by omega)] at hq
      exact absurd hq (by simp)
    have hem : e ∈ q := by
      have hpe : q[p] = e := by
        rw [List.getElem?_eq_getElem hpl] at hq
        simpa using hq
      rw [← hpe]
      exact List.getElem_mem hpl
    have hvpos : 0 < e.item.value := by
      unfold pressAt at hpress
      rw [hq] at hpress
      simpa using hpress
    have hv1 : e.item.value = 1 := by
      rcases hval e hem with h1 | h1
      · exact h1
      · omega
    have hhit : hitAdd 0 e.item.value = 1 := by
      rw [hv1]
      unfold hitAdd
      omega
    rw [hhit] at h
    have hge := pairAux_some_ge q _ fv _ _ _ _ h
    have hsum := pairAux_sum q e.item.usage_id fv hval (q.length + 1) 1 (p + 1) j
      (le_refl 1) (by omega) h
    have husage : usageAt q p = e.item.usage_id := by
      unfold usageAt
      rw [hq]
    rw [husage]
    have hsplit : netRange q e.item.usage_id p (j + 1)
        = contrib q e.item.usage_id p + netRange q e.item.usage_id (p + 1) (j + 1) := by
      unfold netRange
      exact Finset.sum_eq_sum_Ico_succ_bot (by omega) _
    have hc : contrib q e.item.usage_id p = e.item.value := by
      unfold contrib
      rw [hq]
      dsimp only
      rw [if_pos rfl]
    rw [hsplit, hc, hv1]
    omega

/-- Main invariant of the outer cleanup loop: the removed prefix never
exceeds `first_valid`, every removed press has its pairing release
inside the removed prefix, and a press whose pairing scan fails blocks
any purge at or past its position. -/
lemma cleanupLoop_spec (q : List ItemEvent) (fv : Nat) :
    ∀ fuel cur maxf purged,
      purged ≤ cur → cur ≤ fv →
      (∀ p, p < cur → pressAt q p = true →
        ∃ j, pairScan q fv p = some j ∧ j ≤ maxf) →
      (∀ p, p < purged → pressAt q p = true →
        ∃ j, pairScan q fv p = some j ∧ j < purged) →
      purged ≤ cleanupLoop q fv fuel cur maxf purged ∧
      cleanupLoop q fv fuel cur maxf purged ≤ fv ∧
      (∀ p, p < cleanupLoop q fv fuel cur maxf purged → pressAt q p = true →
        ∃ j, pairScan q fv p = some j ∧ j < cleanupLoop q fv fuel cur maxf purged) ∧
      (∀ p, pressAt q p = true → pairScan q fv p = none → purged ≤ p →
        cleanupLoop q fv fuel cur maxf purged ≤ p) := by
  intro fuel
  induction fuel with
  | zero =>
    intro cur maxf purged hpc hcf _ h3
    rw [cleanupLoop]
    exact ⟨le_refl _, by omega, h3, fun p _ _ hpp => hpp⟩
  | succ fuel ih =>
    intro cur maxf purged hpc hcf h2 h3
    rw [cleanupLoop]
    cases hcur : q[cur]? with
    | none =>
      dsimp only
      exact ⟨le_refl _, by omega, h3, fun p _ _ hpp => hpp⟩
    | some e =>
      dsimp only
      have hpcur : pressAt q cur = (decide (0 < e.item.value)) := by
        unfold pressAt
        rw [hcur]
      by_cases hv : 0 < e.item.value
      · rw [if_pos hv]
        have hpresscur : pressAt q cur = true := by
          rw [hpcur]
          simpa using hv
        cases hscan : pairScan q fv cur with
        | none =>
          dsimp only
          refine ⟨le_refl _, by omega, h3, fun p hpp hpn hpge => ?_⟩
          exact hpge
        | some j =>
          dsimp only
          by_cases hfv : cur = fv
          · rw [if_pos hfv]
            exact ⟨le_refl _, by omega, h3, fun p _ _ hpp => hpp⟩
          · rw [if_neg hfv]
            have hcurlt : cur < fv := by omega
            have hjlt := pairScan_some_lt q hscan
            have hjfv : j < fv := hjlt.2.2 (by omega)
            have h2' : ∀ p, p < cur + 1 → pressAt q p = true →
                ∃ j', pairScan q fv p = some j' ∧
                  j' ≤ (if maxf < j then j else maxf) := by
              intro p hp hpr
              by_cases hpe : p = cur
              · subst hpe
                exact ⟨j, hscan, by split <;> omega⟩
              · obtain ⟨j', hj1, hj2⟩ := h2 p (by omega) hpr
                exact ⟨j', hj1, by split <;> omega⟩
            by_cases hmx : cur = (if maxf < j then j else maxf)
            · rw [if_pos hmx]
              have h3' : ∀ p, p < cur + 1 → pressAt q p = true →
                  ∃ j', pairScan q fv p = some j' ∧ j' < cur + 1 := by
                intro p hp hpr
                obtain ⟨j', hj1, hj2⟩ := h2' p hp hpr
                exact ⟨j', hj1, by omega⟩
              obtain ⟨c1, c2, c3, c4⟩ := ih (cur + 1)
                (if maxf < j then j else maxf) (cur + 1) (le_refl _)
                (by omega) h2' h3'
              refine ⟨by omega, c2, c3, fun p hpp hpn hpge => ?_⟩
              apply c4 p hpp hpn
              by_cases hple : p ≤ cur
              · exfalso
                by_cases hpe : p = cur
                · subst hpe
                  rw [hscan] at hpn
                  exact absurd hpn (by simp)
                · obtain ⟨j', hj1, _⟩ := h2 p (by omega) hpp
                  rw [hj1] at hpn
                  exact absurd hpn (by simp)
              · omega
            · rw [if_neg hmx]
              obtain ⟨c1, c2, c3, c4⟩ := ih (cur + 1)
                (if maxf < j then j else maxf) purged (by omega)
                (by omega) h2' h3
              exact ⟨c1, c2, c3, fun p hpp hpn hpge => c4 p hpp hpn hpge⟩
      · rw [if_neg hv]
        have hpresscur : pressAt q cur = false := by
          rw [hpcur]
          simpa using hv
        by_cases hfv : cur = fv
        · rw [if_pos hfv]
          exact ⟨le_refl _, by omega, h3, fun p _ _ hpp => hpp⟩
        · rw [if_neg hfv]
          have hcurlt : cur < fv := by omega
          have h2' : ∀ p, p < cur + 1 → pressAt q p = true →
              ∃ j', pairScan q fv p = some j' ∧ j' ≤ maxf := by
            intro p hp hpr
            by_cases hpe : p = cur
            · subst hpe
              rw [hpresscur] at hpr
              exact absurd hpr (by simp)
            · exact h2 p (by omega) hpr
          by_cases hmx : cur = maxf
          · rw [if_pos hmx]
            have h3' : ∀ p, p < cur + 1 → pressAt q p = true →
                ∃ j', pairScan q fv p = some j' ∧ j' < cur + 1 := by
              intro p hp hpr
              obtain ⟨j', hj1, hj2⟩ := h2' p hp hpr
              exact ⟨j', hj1, by omega⟩
            obtain ⟨c1, c2, c3, c4⟩ := ih (cur + 1) maxf (cur + 1)
              (le_refl _) (by omega) h2' h3'
            refine ⟨by omega, c2, c3, fun p hpp hpn hpge => ?_⟩
            apply c4 p hpp hpn
            by_cases hple : p ≤ cur
            · exfalso
              by_cases hpe : p = cur
              · subst hpe
                rw [hpresscur] at hpp
                exact absurd hpp (by simp)
              · obtain ⟨j', hj1, _⟩ := h2 p (by omega) hpp
                rw [hj1] at hpn
                exact absurd hpn (by simp)
            · omega
          · rw [if_neg hmx]
            obtain ⟨c1, c2, c3, c4⟩ := ih (cur + 1) maxf purged (by omega)
              (by omega) h2' h3
            exact ⟨c1, c2, c3, c4⟩

/-- If every press in `[0, P)` pairs inside `[0, P)`, the net delta of
every usage over any tail `[s, P)` is non-positive. -/
lemma net_nonpos (q : List ItemEvent) (u fv P : Nat)
    (hval : ∀ e ∈ q, e.item.value = 1 ∨ e.item.value = -1)
    (hlen : q.length + 2 < 4294967296)
    (hpair : ∀ p, p < P → pressAt q p = true →
      ∃ j, pairScan q fv p = some j ∧ j < P) :
    ∀ n s, P - s ≤ n → netRange q u s P ≤ 0 := by
  intro n
  induction n with
  | zero =>
    intro s hs
    unfold netRange
    rw [Finset.Ico_eq_empty (by omega), Finset.sum_empty]
  | succ n ih =>
    intro s hs
    by_cases hsP : P ≤ s
    · unfold netRange
      rw [Finset.Ico_eq_empty (by omega), Finset.sum_empty]
    · push_neg at hsP
      by_cases hpu : pressAt q s = true ∧ usageAt q s = u
      · obtain ⟨j, hjscan, hjP⟩ := hpair s hsP hpu.1
        have hslt := pairScan_some_lt q hjscan
        have hsum0 := pairScan_sum q hval hlen hpu.1 hjscan
        rw [hpu.2] at hsum0
        have hsplit : netRange q u s P
            = netRange q u s (j + 1) + netRange q u (j + 1) P := by
          unfold netRange
          exact (Finset.sum_Ico_consecutive _ (by omega) (by omega)).symm
        rw [hsplit, hsum0, zero_add]
        exact ih (j + 1) (by omega)
      · have hsplit : netRange q u s P
            = contrib q u s + netRange q u (s + 1) P := by
          unfold netRange
          exact Finset.sum_eq_sum_Ico_succ_bot (by omega) _
        have hcne : contrib q u s ≤ 0 := by
          unfold contrib
          cases hq : q[s]? with
          | none => dsimp only; omega
          | some e =>
            dsimp only
            by_cases hu : e.item.usage_id = u
            · rw [if_pos hu]
              have hnp : ¬ (0 < e.item.value) := by
                intro hpos
                apply hpu
                constructor
                · unfold pressAt
                  rw [hq]
                  simpa using hpos
                · unfold usageAt
                  rw [hq]
                  exact hu
              have hem : e ∈ q := by
                have hsl : s < q.length := by
                  by_contra hge
                  rw [List.getElem?_eq_none (by omega)] at hq
                  exact absurd hq (by simp)
                have hse : q[s] = e := by
                  rw [List.getElem?_eq_getElem hsl] at hq
                  simpa using hq
                rw [← hse]
                exact List.getElem_mem (by assumption)
              omega
            · rw [if_neg hu]
        have := ih (s + 1) (by omega)
        rw [hsplit]
        omega

/-- `eventq_cleanup` specification packaged at the queue level. -/
lemma eventq_cleanup_spec (expiration now : Nat) (q : List ItemEvent) :
    eventq_cleanup_count expiration now q ≤ firstValidIdx expiration now q ∧
    (∀ p, p < eventq_cleanup_count expiration now q → pressAt q p = true →
      ∃ j, pairScan q (firstValidIdx expiration now q) p = some j ∧
        j < eventq_cleanup_count expiration now q) ∧
    (∀ p, pressAt q p = true →
      pairScan q (firstValidIdx expiration now q) p = none →
      eventq_cleanup_count expiration now q ≤ p) := by
  obtain ⟨c1, c2, c3, c4⟩ := cleanupLoop_spec q (firstValidIdx expiration now q)
    (q.length + 1) 0 0 0 (le_refl 0) (Nat.zero_le _)
    (fun p hp _ => absurd hp (by omega))
    (fun p hp _ => absurd hp (by omega))
  exact ⟨c2, c3, fun p hpp hpn => c4 p hpp hpn (Nat.zero_le _)⟩

/-! ### Claim theorems -/

/-- C2: every `value_set` call with a non-zero usage id and non-zero
delta preserves the usage-table invariant: the array stays sorted
ascending by usage id, empty slots carry usage id 0, no non-zero
usage id is duplicated, and the item count equals the number of
occupied slots and stays within the capacity. -/
theorem C2_value_set_invariant {t : Items} (hInv : Inv0 t) {u : Nat}
    (hu : u ≠ 0) {d : Int} (hd : d ≠ 0) : Inv0 (value_set t u d).2 :=
  value_set_Inv0 hInv hu d

theorem C2_value_set_invariant_witness :
    Inv0 (⟨[⟨0, 0⟩, ⟨2, 1⟩], 1⟩ : Items) ∧ (3 : Nat) ≠ 0 ∧ (1 : Int) ≠ 0 ∧
    Inv0 (value_set (⟨[⟨0, 0⟩, ⟨2, 1⟩], 1⟩ : Items) 3 1).2 :=
  ⟨by decide, by decide, by decide,
   C2_value_set_invariant (by decide) (by decide) (by decide)⟩

/-- C3: the contract of `value_set` under the table invariant.  The
binary search finds the usage id exactly when it is present; a found
usage has the delta added in place (same count) when the result is
non-zero, and clears the slot with the count decremented when the
result is exactly zero, returning true either way; an absent usage
with positive delta is inserted (count incremented, true) when below
capacity and dropped (false) at capacity; an absent usage with
negative delta is ignored (false). -/
theorem C3_value_set_contract {t : Items} (hInv : Inv0 t) {u : Nat}
    (hu : u ≠ 0) {d : Int} (hd : d ≠ 0) :
    ((∃ i, bsearchIdx t.item u = some i) ↔ u ∈ usages t.item) ∧
    (∀ i, bsearchIdx t.item u = some i →
      ((t.item.getD i ⟨0, 0⟩).value + d ≠ 0 →
        value_set t u d
          = (true, ⟨t.item.set i ⟨u, (t.item.getD i ⟨0, 0⟩).value + d⟩,
              t.item_count⟩)) ∧
      ((t.item.getD i ⟨0, 0⟩).value + d = 0 →
        (value_set t u d).1 = true ∧
        List.Perm (value_set t u d).2.item (t.item.set i ⟨0, 0⟩) ∧
        (value_set t u d).2.item_count = t.item_count - 1)) ∧
    (bsearchIdx t.item u = none → 0 < d → t.item_count < t.item.length →
      (value_set t u d).1 = true ∧
      List.Perm (value_set t u d).2.item
        (t.item.set (t.item.length - t.item_count - 1) ⟨u, d⟩) ∧
      (value_set t u d).2.item_count = t.item_count + 1) ∧
    (bsearchIdx t.item u = none → 0 < d → t.item.length ≤ t.item_count →
      value_set t u d = (false, t)) ∧
    (bsearchIdx t.item u = none → d < 0 →
      value_set t u d = (false, t)) := by
  obtain ⟨hs, hnd, hcnt, hle⟩ := hInv
  refine ⟨?_, ?_, ?_, ?_, ?_⟩
  · constructor
    · rintro ⟨i, hfind⟩
      obtain ⟨hi, hui⟩ := bsearchIdx_some hfind
      exact hui ▸ mem_usages hi
    · exact bsearch_found_of_mem hs
  · intro i hfind
    obtain ⟨hi, hui⟩ := bsearchIdx_some hfind
    constructor
    · intro hne
      rw [value_set_found_ne hfind hne, hui]
    · intro hz
      have hc : 1 ≤ t.item_count := by
        have hmem : u ∈ nzUsages t.item := by
          apply List.mem_filter.mpr
          exact ⟨hui ▸ mem_usages hi, by simpa using hu⟩
        have := List.length_pos.mpr (List.ne_nil_of_mem hmem)
        omega
      rw [value_set_found_zero hfind hz hc]
      exact ⟨rfl, sortItems_perm _, rfl⟩
  · intro hfind hdpos hroom
    rw [value_set_none_insert hfind (by omega) hroom]
    exact ⟨rfl, sortItems_perm _, rfl⟩
  · intro hfind hdpos hfull
    exact value_set_none_full hfind (by omega) hfull
  · intro hfind hdneg
    exact value_set_none_neg hfind hdneg

theorem C3_value_set_contract_witness :
    Inv0 (⟨[⟨0, 0⟩, ⟨2, 1⟩], 1⟩ : Items) ∧ (5 : Nat) ≠ 0 ∧ (-1 : Int) ≠ 0 ∧
    bsearchIdx ([⟨0, 0⟩, ⟨2, 1⟩] : List Item) 5 = none ∧
    value_set (⟨[⟨0, 0⟩, ⟨2, 1⟩], 1⟩ : Items) 5 (-1)
      = (false, (⟨[⟨0, 0⟩, ⟨2, 1⟩], 1⟩ : Items)) :=
  ⟨by decide, by decide, by decide, by decide,
   (C3_value_set_contract (by decide) (by decide) (by decide)).2.2.2.2
     (by decide) (by decide)⟩

/-- C4 (corrected): with the unit deltas the module actually feeds the
table (each key event contributes +1 or -1), no stored value is ever
below zero after any sequence of `value_set` calls from an empty
table, and an orphaned release (negative delta for an absent usage)
leaves the table unchanged and returns false.  For arbitrary deltas
the original claim is false: a found usage's delta is added without
clamping, so a negative total is stored (see the counterexample). -/
theorem C4_no_negative_accumulation (cap : Nat) (seq : List (Nat × Int))
    (hseq : ∀ p ∈ seq, p.1 ≠ 0 ∧ (p.2 = 1 ∨ p.2 = -1)) :
    (∀ it ∈ (applySeq (emptyItems cap) seq).item, 0 ≤ it.value) ∧
    (∀ u, u ∉ usages (applySeq (emptyItems cap) seq).item →
      ∀ d : Int, d < 0 →
        value_set (applySeq (emptyItems cap) seq) u d
          = (false, applySeq (emptyItems cap) seq)) := by
  have h4 := applySeq_Inv4 (Inv4_empty cap) seq hseq
  constructor
  · intro it hit
    obtain ⟨h0, hpos⟩ := h4.2 it hit
    by_cases hz : it.usage_id = 0
    · have := h0 hz
      omega
    · have := hpos hz
      omega
  · intro u hnm d hd
    exact value_set_orphan h4.1.1 hnm hd

theorem C4_no_negative_accumulation_witness :
    (∀ p ∈ ([(3, 1), (3, -1)] : List (Nat × Int)),
      p.1 ≠ 0 ∧ (p.2 = 1 ∨ p.2 = -1)) ∧
    (∀ it ∈ (applySeq (emptyItems 2) [(3, 1), (3, -1)]).item, 0 ≤ it.value) :=
  ⟨by decide,
   (C4_no_negative_accumulation 2 [(3, 1), (3, -1)] (by decide)).1⟩

/-- C4 counterexample: `value_set` adds an arbitrary delta without
clamping, so the sequence (3, +2) then (3, -5) from an empty table
stores the negative value -3, refuting the claim for unrestricted
delta sequences. -/
theorem C4_negative_value_counterexample :
    ∃ it ∈ (applySeq (emptyItems 2) [(3, 2), (3, -5)]).item, it.value < 0 := by
  decide

/-- C10 (corrected): a subscription-disabled (disconnect) event while
the state machine is already DISCONNECTED is silently ignored — the
handler leaves the state unchanged and trips no assertion — rather
than being a fatal invariant violation as the spec claims. -/
theorem C10_disconnect_while_disconnected (st : HState)
    (h : st.state = .disconnected) :
    disconnect st = st ∧
    (disconnect st).fatal = st.fatal ∧
    (∀ expiration now g, handleSubscription expiration now g false st = st) := by
  have hid : disconnect st = st := by
    simp [disconnect, h]
  exact ⟨hid, by rw [hid], fun expiration now g => hid⟩

theorem C10_disconnect_while_disconnected_witness :
    ((⟨emptyItems 1, emptyItems 1, emptyItems 1, [], 0, .disconnected,
        0, 0, 0, 0, 0, 0, [], false⟩ : HState).state = .disconnected) ∧
    disconnect (⟨emptyItems 1, emptyItems 1, emptyItems 1, [], 0, .disconnected,
        0, 0, 0, 0, 0, 0, [], false⟩ : HState)
      = (⟨emptyItems 1, emptyItems 1, emptyItems 1, [], 0, .disconnected,
        0, 0, 0, 0, 0, 0, [], false⟩ : HState) :=
  ⟨by decide,
   (C10_disconnect_while_disconnected _ (by decide)).1⟩

/-- C10 counterexample: the disconnect-while-DISCONNECTED combination
is handled at runtime with no assertion: the `fatal` flag (which
records every `__ASSERT` failure of the embedding) stays false, so
the combination is not fatal as claimed. -/
theorem C10_not_fatal_counterexample :
    (handleSubscription 0 0 false false
      (⟨emptyItems 1, emptyItems 1, emptyItems 1, [], 0, .disconnected,
        0, 0, 0, 0, 0, 0, [], false⟩ : HState)).fatal = false := by
  decide

/-- C1 (corrected): pairing safety of `eventq_cleanup` for a queue of
unit deltas.  The removed events form a prefix that never reaches the
first still-fresh event; every removed press has a pairing point
(cumulative same-usage delta reaching zero) strictly inside the
removed prefix; a press whose pairing scan fails before `first_valid`
blocks any purge at or past its position; and the net delta of every
usage id over the removed entries is non-positive.  The original
claim's "non-negative net delta" is wrong: a lone expired release is
purged with net delta -1 (see the counterexample). -/
theorem C1_cleanup_pairing_safety (expiration now : Nat) (q : List ItemEvent)
    (hval : ∀ e ∈ q, e.item.value = 1 ∨ e.item.value = -1)
    (hlen : q.length + 2 < 4294967296) :
    eventq_cleanup expiration now q
      = q.drop (eventq_cleanup_count expiration now q) ∧
    eventq_cleanup_count expiration now q ≤ firstValidIdx expiration now q ∧
    (∀ p, p < eventq_cleanup_count expiration now q → pressAt q p = true →
      ∃ j, pairScan q (firstValidIdx expiration now q) p = some j ∧
        j < eventq_cleanup_count expiration now q) ∧
    (∀ p, pressAt q p = true →
      pairScan q (firstValidIdx expiration now q) p = none →
      eventq_cleanup_count expiration now q ≤ p) ∧
    (∀ u, netRange q u 0 (eventq_cleanup_count expiration now q) ≤ 0) := by
  obtain ⟨c1, c2, c3⟩ := eventq_cleanup_spec expiration now q
  refine ⟨rfl, c1, c2, c3, fun u => ?_⟩
  exact net_nonpos q u (firstValidIdx expiration now q)
    (eventq_cleanup_count expiration now q) hval hlen c2
    (eventq_cleanup_count expiration now q) 0 (by omega)

theorem C1_cleanup_pairing_safety_witness :
    (∀ e ∈ ([⟨⟨1, 1⟩, .keyboard, 0⟩, ⟨⟨1, -1⟩, .keyboard, 0⟩] : List ItemEvent),
      e.item.value = 1 ∨ e.item.value = -1) ∧
    ([⟨⟨1, 1⟩, .keyboard, 0⟩, ⟨⟨1, -1⟩, .keyboard, 0⟩] : List ItemEvent).length + 2
      < 4294967296 ∧
    netRange ([⟨⟨1, 1⟩, .keyboard, 0⟩, ⟨⟨1, -1⟩, .keyboard, 0⟩] : List ItemEvent) 1 0
      (eventq_cleanup_count 100 300
        ([⟨⟨1, 1⟩, .keyboard, 0⟩, ⟨⟨1, -1⟩, .keyboard, 0⟩] : List ItemEvent)) ≤ 0 :=
  ⟨by decide, by decide,
   (C1_cleanup_pairing_safety 100 300
     ([⟨⟨1, 1⟩, .keyboard, 0⟩, ⟨⟨1, -1⟩, .keyboard, 0⟩] : List ItemEvent)
     (by decide) (by decide)).2.2.2.2 1⟩

/-- C1 counterexample: a lone expired release (usage 1, delta -1) is
purged by cleanup, so the net delta of usage 1 over the removed
entries is -1, refuting the claimed "non-negative net delta among
the removed entries". -/
theorem C1_negative_net_counterexample :
    eventq_cleanup_count 100 200 ([⟨⟨1, -1⟩, .keyboard, 0⟩] : List ItemEvent) = 1 ∧
    netRange ([⟨⟨1, -1⟩, .keyboard, 0⟩] : List ItemEvent) 1 0 1 = -1 := by
  decide

/-- C6: `enqueue` runs cleanup first and appends the new event only
after the overflow stage (retry cleanup at each queued event's
expiration instant while DISCONNECTED, then hard reset if still
full), so the length counter stays accurate and the queue length
never exceeds the capacity. -/
theorem C6_enqueue_capacity {st : HState}
    (h : st.eventq_len = st.eventq.length) {qcap : Nat} (hcap : 1 ≤ qcap)
    (hlen : st.eventq_len ≤ qcap) (expiration now : Nat) (allocOk : Bool)
    (tr : Target) (usage_id : Nat) (report : Int) :
    enqueue expiration qcap now allocOk tr usage_id report st
      = (if allocOk then
          { enqueueOverflow expiration qcap (cleanupSt expiration now st) with
            eventq :=
              (enqueueOverflow expiration qcap (cleanupSt expiration now st)).eventq
                ++ [⟨⟨usage_id, report⟩, tr, now⟩],
            eventq_len :=
              (enqueueOverflow expiration qcap
                (cleanupSt expiration now st)).eventq_len + 1 }
         else enqueueOverflow expiration qcap (cleanupSt expiration now st)) ∧
    (enqueue expiration qcap now allocOk tr usage_id report st).eventq_len
      = (enqueue expiration qcap now allocOk tr usage_id report st).eventq.length ∧
    (enqueue expiration qcap now allocOk tr usage_id report st).eventq.length
      ≤ qcap := by
  obtain ⟨g1, g2, g3⟩ := enqueue_len h hcap hlen expiration now allocOk tr usage_id report
  exact ⟨rfl, g1, g3⟩

theorem C6_enqueue_capacity_witness :
    ((⟨emptyItems 1, emptyItems 1, emptyItems 1, [⟨⟨1, 1⟩, .keyboard, 0⟩], 1,
        .disconnected, 0, 0, 0, 0, 0, 0, [], false⟩ : HState).eventq_len
      = (⟨emptyItems 1, emptyItems 1, emptyItems 1, [⟨⟨1, 1⟩, .keyboard, 0⟩], 1,
        .disconnected, 0, 0, 0, 0, 0, 0, [], false⟩ : HState).eventq.length) ∧
    (1 : Nat) ≤ 1 ∧
    (enqueue 100 1 50 true .keyboard 2 1
      (⟨emptyItems 1, emptyItems 1, emptyItems 1, [⟨⟨1, 1⟩, .keyboard, 0⟩], 1,
        .disconnected, 0, 0, 0, 0, 0, 0, [], false⟩ : HState)).eventq.length ≤ 1 :=
  ⟨by decide, by decide,
   (C6_enqueue_capacity (by decide) (by decide) (by decide) 100 50 true
     .keyboard 2 1).2.2⟩

/-- C9 (corrected): under the runtime table invariant, a dispatched
keyboard report selects up to `KEYS` (6) pressed usages by scanning
the table from the highest index downwards — which, the table being
sorted, is descending usage-id order, not most-recently-inserted
order (see the counterexample) — zero-fills the remaining slots, and
carries a modifier bitmap of zero. -/
theorem C9_keyboard_report_content {t : Items} (h : Inv4 t) :
    keyboardKeys t.item
      = (((t.item.drop (t.item.length - t.item_count)).reverse.take KEYS).map
          (fun it => it.usage_id))
        ++ List.replicate
            (KEYS - (((t.item.drop (t.item.length - t.item_count)).reverse.take KEYS).map
              (fun it => it.usage_id)).length) 0 ∧
    ((((t.item.drop (t.item.length - t.item_count)).reverse.take KEYS).map
        (fun it => it.usage_id))).Pairwise (fun a b => b < a) ∧
    (∀ st : HState, getItems st .keyboard = t →
      (send_report_keyboard st).out
        = st.out ++ [OutEvent.keyboard (keyboardKeys t.item) 0]) := by
  refine ⟨keyboardKeys_char h, keyboardKeys_desc h, ?_⟩
  intro st hst
  simp [send_report_keyboard, hst]

theorem C9_keyboard_report_content_witness :
    Inv4 (⟨[⟨0, 0⟩, ⟨3, 1⟩, ⟨5, 1⟩], 2⟩ : Items) ∧
    keyboardKeys ([⟨0, 0⟩, ⟨3, 1⟩, ⟨5, 1⟩] : List Item)
      = (((([⟨0, 0⟩, ⟨3, 1⟩, ⟨5, 1⟩] : List Item).drop (3 - 2)).reverse.take KEYS).map
          (fun it => it.usage_id))
        ++ List.replicate
            (KEYS - (((([⟨0, 0⟩, ⟨3, 1⟩, ⟨5, 1⟩] : List Item).drop (3 - 2)).reverse.take
                KEYS).map (fun it => it.usage_id)).length) 0 :=
  ⟨by decide,
   (@C9_keyboard_report_content (⟨[⟨0, 0⟩, ⟨3, 1⟩, ⟨5, 1⟩], 2⟩ : Items) (by decide)).1⟩

/-- C9 counterexample: pressing usage 5 and then usage 3 (so 3 is the
most recently inserted) yields a keyboard report whose first slot is
5, not 3: the slots follow descending usage-id order after the sort,
not insertion recency. -/
theorem C9_recency_counterexample :
    keyboardKeys (applySeq (emptyItems 2) [(5, 1), (3, 1)]).item
      = [5, 3, 0, 0, 0, 0] ∧
    keyboardKeys (applySeq (emptyItems 2) [(5, 1), (3, 1)]).item
      ≠ [3, 5, 0, 0, 0, 0] := by
  decide

/-- `report_send` forces the CONNECTED_BUSY state (restated here for
the claim proofs). -/
lemma report_send_busy (tr : Target) (st : HState) :
    (report_send tr st).state = .connectedBusy :=
  report_send_state tr st

/-- With every pressed mouse usage in range, no assertion of
`send_report_mouse` fires anywhere inside `report_send`. -/
lemma report_send_mouse_fatal (st : HState)
    (h : mouseUsagesOk (getItems st .mouse).item = true) :
    (report_send .mouse st).fatal = st.fatal := by
  have hitems : getItems (sendOne st .mouse) .mouse = getItems st .mouse := by
    simp [sendOne, send_report_mouse, getItems]
  have hfat1 : (sendOne st .mouse).fatal = st.fatal := by
    simp [sendOne, send_report_mouse, h]
  have hfat2 : (sendOne (sendOne st .mouse) .mouse).fatal = st.fatal := by
    have h2 : mouseUsagesOk (getItems (sendOne st .mouse) .mouse).item = true := by
      rw [hitems]
      exact h
    show (send_report_mouse (sendOne st .mouse)).fatal = st.fatal
    simp [send_report_mouse, h2, hfat1]
  rw [report_send, report_sendAux_step]
  by_cases hc1 : getCnt (sendOne st .mouse) .mouse = 1
  · rw [if_pos hc1]
    show (report_sendAux 2 .mouse (sendOne st .mouse)).fatal = st.fatal
    rw [report_sendAux_step]
    by_cases hc2 : getCnt (sendOne (sendOne st .mouse) .mouse) .mouse = 1
    · exfalso
      have hcnt2 : getCnt (sendOne (sendOne st .mouse) .mouse) .mouse
          = (sendOne st .mouse).cntMouse + 1 := by
        simp [sendOne, send_report_mouse, getCnt]
      have hc1' : (sendOne st .mouse).cntMouse = 1 := hc1
      rw [hcnt2, hc1'] at hc2
      omega
    · rw [if_neg hc2]
      exact hfat2
  · rw [if_neg hc1]
    exact hfat1

/-- `report_issued` on an empty queue with a pending mouse
accumulator: go IDLE, then dispatch the pending mouse report. -/
lemma report_issued_empty (st : HState) (hq : st.eventq = [])
    (hnz : ¬(st.last_dx = 0 ∧ st.last_dy = 0 ∧ st.wheel_acc = 0)) :
    report_issued false st
      = report_send .mouse { st with state := .connectedIdle } := by
  unfold report_issued
  have hlen : st.eventq.length = 0 := by rw [hq]; rfl
  rw [hlen, drainLoop, hq]
  dsimp only
  rw [if_pos (show (!false) = true from rfl)]
  rw [if_pos (show st.last_dx ≠ 0 ∨ st.last_dy ≠ 0 ∨ st.wheel_acc ≠ 0 by tauto)]

/-- C7 (corrected): a motion event overwrites the pending `dx`/`dy`
(the code explicitly does not accumulate them); while CONNECTED_BUSY
only the keep-alive ping is submitted, and the next acknowledgment
with no queued events dispatches a mouse report carrying exactly the
last event's `dx`/`dy` with the accumulated wheel, then zeroes the
accumulators. -/
theorem C7_motion_replaces (dx dy : Int) (st : HState)
    (hbusy : st.state = .connectedBusy) :
    (handleMotion dx dy st).last_dx = dx ∧
    (handleMotion dx dy st).last_dy = dy ∧
    (handleMotion dx dy st).out = st.out ++ [OutEvent.keepActive] ∧
    (handleMotion dx dy st).state = st.state ∧
    (st.eventq = [] → ¬(dx = 0 ∧ dy = 0 ∧ st.wheel_acc = 0) →
      (∃ extra, (report_issued false (handleMotion dx dy st)).out
        = st.out ++ OutEvent.keepActive
            :: OutEvent.mouse dx dy st.wheel_acc
                (mouseButtonBm (getItems st .mouse).item) :: extra) ∧
      (report_issued false (handleMotion dx dy st)).last_dx = 0 ∧
      (report_issued false (handleMotion dx dy st)).last_dy = 0 ∧
      (report_issued false (handleMotion dx dy st)).wheel_acc = 0) := by
  have hM : handleMotion dx dy st
      = { st with last_dx := dx, last_dy := dy,
                  out := st.out ++ [OutEvent.keepActive] } := by
    simp only [handleMotion, keep_device_active]
    rw [if_neg (by simp [hbusy])]
  refine ⟨by rw [hM], by rw [hM], by rw [hM], by rw [hM], ?_⟩
  intro hq hnz
  have hre : report_issued false (handleMotion dx dy st)
      = report_send .mouse { handleMotion dx dy st with state := .connectedIdle } := by
    apply report_issued_empty
    · rw [hM]
      exact hq
    · rw [hM]
      exact hnz
  obtain ⟨⟨extra, hout⟩, z1, z2, z3⟩ :=
    report_send_mouse_out { handleMotion dx dy st with state := .connectedIdle }
  rw [hre]
  refine ⟨⟨extra, ?_⟩, z1, z2, z3⟩
  rw [hout, hM]
  show (st.out ++ [OutEvent.keepActive])
      ++ OutEvent.mouse dx dy st.wheel_acc
          (mouseButtonBm (getItems st .mouse).item) :: extra = _
  simp [List.append_assoc]

theorem C7_motion_replaces_witness :
    ((⟨emptyItems 1, emptyItems 1, emptyItems 1, [], 0, .connectedBusy,
        0, 0, 0, 0, 1, 0, [], false⟩ : HState).state = .connectedBusy) ∧
    (handleMotion 5 (-3)
      (⟨emptyItems 1, emptyItems 1, emptyItems 1, [], 0, .connectedBusy,
        0, 0, 0, 0, 1, 0, [], false⟩ : HState)).last_dx = 5 :=
  ⟨by decide,
   (C7_motion_replaces 5 (-3)
     (⟨emptyItems 1, emptyItems 1, emptyItems 1, [], 0, .connectedBusy,
       0, 0, 0, 0, 1, 0, [], false⟩ : HState) (by decide)).1⟩

/-- C7 counterexample: with a pending `last_dx = 5`, a motion event
with `dx = 7` leaves `last_dx = 7`, not the accumulated 12: motion is
overwritten, not accumulated. -/
theorem C7_accumulation_counterexample :
    (handleMotion 7 2
      (⟨emptyItems 1, emptyItems 1, emptyItems 1, [], 0, .connectedBusy,
        0, 5, 6, 0, 0, 0, [], false⟩ : HState)).last_dx = 7 ∧
    ¬ (handleMotion 7 2
      (⟨emptyItems 1, emptyItems 1, emptyItems 1, [], 0, .connectedBusy,
        0, 5, 6, 0, 0, 0, [], false⟩ : HState)).last_dx = 5 + 7 := by
  decide

/-- C8: a dispatched mouse report carries exactly the pending `dx`,
`dy` and `wheel` and the button bitmap OR-ing `1 <<: (usage_id - 1)`
over every pressed mouse usage; with every pressed usage id in 1..8
no assertion fires, and the accumulators are zero immediately after
the dispatch. -/
theorem C8_mouse_report_content (st : HState)
    (h : ∀ it ∈ (getItems st .mouse).item, it.value ≠ 0 →
      1 ≤ it.usage_id ∧ it.usage_id ≤ 8) :
    (∃ extra, (report_send .mouse st).out
      = st.out ++ OutEvent.mouse st.last_dx st.last_dy st.wheel_acc
          ((getItems st .mouse).item.foldl
            (fun bm it => if it.value ≠ 0 then bm ||| 2 ^ (it.usage_id - 1) else bm)
            0) :: extra) ∧
    (report_send .mouse st).last_dx = 0 ∧
    (report_send .mouse st).last_dy = 0 ∧
    (report_send .mouse st).wheel_acc = 0 ∧
    (report_send .mouse st).fatal = st.fatal := by
  obtain ⟨⟨extra, hout⟩, z1, z2, z3⟩ := report_send_mouse_out st
  refine ⟨⟨extra, ?_⟩, z1, z2, z3,
    report_send_mouse_fatal st (mouseUsagesOk_of h)⟩
  rw [hout, mouseButtonBm_spec h]

theorem C8_mouse_report_content_witness :
    (∀ it ∈ (getItems (⟨emptyItems 1, ⟨[⟨2, 1⟩], 1⟩, emptyItems 1, [], 0,
        .connectedIdle, 3, 4, 5, 0, 0, 0, [], false⟩ : HState) .mouse).item,
      it.value ≠ 0 → 1 ≤ it.usage_id ∧ it.usage_id ≤ 8) ∧
    (report_send .mouse (⟨emptyItems 1, ⟨[⟨2, 1⟩], 1⟩, emptyItems 1, [], 0,
        .connectedIdle, 3, 4, 5, 0, 0, 0, [], false⟩ : HState)).wheel_acc = 0 ∧
    (report_send .mouse (⟨emptyItems 1, ⟨[⟨2, 1⟩], 1⟩, emptyItems 1, [], 0,
        .connectedIdle, 3, 4, 5, 0, 0, 0, [], false⟩ : HState)).fatal = false := by
  have hap := C8_mouse_report_content
    (⟨emptyItems 1, ⟨[⟨2, 1⟩], 1⟩, emptyItems 1, [], 0,
      .connectedIdle, 3, 4, 5, 0, 0, 0, [], false⟩ : HState) (by decide)
  exact ⟨by decide, hap.2.2.2.1, hap.2.2.2.2⟩

/-- C5 (corrected): on a report-sent acknowledgment the module drains
queued events until one changes its table (not exactly one event): if
the whole queue drains with no change the state becomes
CONNECTED_IDLE — unless a pending mouse accumulator is non-zero, in
which case a mouse report is dispatched and the state is
CONNECTED_BUSY; if some drained event changes its table (possibly
after several unchanged ones, see the counterexample) a report of its
kind is dispatched and the state stays CONNECTED_BUSY. -/
theorem C5_ack_drains_until_change (g : Bool) (st : HState)
    (hside : g = false ∨ st.eventq ≠ []) :
    ((drainLoop (st.eventq.length + 1) st g).2 = false →
      ((st.last_dx = 0 ∧ st.last_dy = 0 ∧ st.wheel_acc = 0) →
        (report_issued g st).state = .connectedIdle ∧
        (report_issued g st).eventq = [] ∧
        (report_issued g st).out = st.out) ∧
      (¬(st.last_dx = 0 ∧ st.last_dy = 0 ∧ st.wheel_acc = 0) →
        (report_issued g st).state = .connectedBusy ∧
        ∃ extra, (report_issued g st).out
          = st.out ++ OutEvent.mouse st.last_dx st.last_dy st.wheel_acc
              (mouseButtonBm
                (getItems (drainLoop (st.eventq.length + 1) st g).1 .mouse).item)
            :: extra)) ∧
    ((drainLoop (st.eventq.length + 1) st g).2 = true →
      (report_issued g st).state = .connectedBusy ∧
      ∃ pre ev rest stPre,
        st.eventq = pre ++ ev :: rest ∧
        stPre.eventq = ev :: rest ∧
        stPre.out = st.out ∧
        (value_set (getItems stPre ev.tr) ev.item.usage_id ev.item.value).1 = true ∧
        (ev.tr ≠ Target.mplayer →
          ∃ r extra, (report_issued g st).out = st.out ++ r :: extra ∧
            kindOf r = some ev.tr)) := by
  constructor
  · intro hfalse
    obtain ⟨d1, d2, d3, d4, d5, d6⟩ :=
      drainLoop_false (st.eventq.length + 1) st g (by omega) hfalse
    constructor
    · intro hzero
      have hri : report_issued g st = (drainLoop (st.eventq.length + 1) st g).1 := by
        unfold report_issued
        rw [if_pos (by simp [hfalse]), if_neg]
        rw [d4, d5, d6]
        simp [hzero.1, hzero.2.1, hzero.2.2]
      rw [hri]
      exact ⟨d2, d1, d3⟩
    · intro hnzero
      have hri : report_issued g st
          = report_send .mouse (drainLoop (st.eventq.length + 1) st g).1 := by
        unfold report_issued
        rw [if_pos (by simp [hfalse]), if_pos]
        rw [d4, d5, d6]
        tauto
      obtain ⟨⟨extra, hout⟩, z1, z2, z3⟩ :=
        report_send_mouse_out (drainLoop (st.eventq.length + 1) st g).1
      rw [hri]
      refine ⟨report_send_busy _ _, extra, ?_⟩
      rw [hout, d3, d4, d5, d6]
  · intro htrue
    obtain ⟨pre, ev, rest, stPre, g1, g2, g3, g4, g5, g6, g7, g8⟩ :=
      drainLoop_true (st.eventq.length + 1) st g (by omega) htrue hside
    have hri : report_issued g st = (drainLoop (st.eventq.length + 1) st g).1 := by
      unfold report_issued
      rw [if_neg (by simp [htrue])]
    have hchanged : (value_set (getItems stPre ev.tr) ev.item.usage_id
        ev.item.value).1 = true := by
      rw [← (drainStep_char stPre ev rest).1]
      exact g7
    obtain ⟨st2, e1, e2, e3, e4, e5, e6⟩ := (drainStep_char stPre ev rest).2.2 g7
    refine ⟨?_, pre, ev, rest, stPre, g1, g2, g3, hchanged, ?_⟩
    · rw [hri, g8, e1]
      exact report_send_busy _ _
    · intro hmp
      obtain ⟨r, extra, hout, hkind⟩ := report_send_out ev.tr st2 hmp
      exact ⟨r, extra, by rw [hri, g8, e1, hout, e2, g3], hkind⟩

theorem C5_ack_drains_until_change_witness :
    ((false = false ∨ (⟨emptyItems 1, emptyItems 1, emptyItems 1,
        [⟨⟨5, -1⟩, .keyboard, 0⟩, ⟨⟨5, 1⟩, .keyboard, 0⟩], 2, .connectedBusy,
        0, 0, 0, 1, 0, 0, [], false⟩ : HState).eventq ≠ [])) ∧
    (report_issued false (⟨emptyItems 1, emptyItems 1, emptyItems 1,
        [⟨⟨5, -1⟩, .keyboard, 0⟩, ⟨⟨5, 1⟩, .keyboard, 0⟩], 2, .connectedBusy,
        0, 0, 0, 1, 0, 0, [], false⟩ : HState)).state = .connectedBusy := by
  refine ⟨Or.inl rfl, ?_⟩
  exact ((C5_ack_drains_until_change false
    (⟨emptyItems 1, emptyItems 1, emptyItems 1,
      [⟨⟨5, -1⟩, .keyboard, 0⟩, ⟨⟨5, 1⟩, .keyboard, 0⟩], 2, .connectedBusy,
      0, 0, 0, 1, 0, 0, [], false⟩ : HState)
    (Or.inl rfl)).2 (by decide)).1

/-- C5 counterexample: with two queued events whose first changes
nothing (an orphaned release) and whose second is a press, the
acknowledgment handler drains BOTH events (the queue ends empty) and
stays CONNECTED_BUSY, while the claim's "drain one queued event"
would leave one event queued and go CONNECTED_IDLE. -/
theorem C5_single_drain_counterexample :
    (report_issued false (⟨emptyItems 1, emptyItems 1, emptyItems 1,
        [⟨⟨5, -1⟩, .keyboard, 0⟩, ⟨⟨5, 1⟩, .keyboard, 0⟩], 2, .connectedBusy,
        0, 0, 0, 1, 0, 0, [], false⟩ : HState)).eventq = [] ∧
    (report_issued false (⟨emptyItems 1, emptyItems 1, emptyItems 1,
        [⟨⟨5, -1⟩, .keyboard, 0⟩, ⟨⟨5, 1⟩, .keyboard, 0⟩], 2, .connectedBusy,
        0, 0, 0, 1, 0, 0, [], false⟩ : HState)).state = .connectedBusy := by
  decide

end HidState
